import Mathlib

/-!
Verification of the calendar recurrence engine (the RecurrenceEngine module of
the repository: generateInstances, getNextDate, createInstance, toRRule,
fromRRule, formatICSDate, parseICSDate).

Modelling conventions, matching the JavaScript source:
* A JavaScript Date is a millisecond timestamp; we model it as an `Int`
  (milliseconds since 1970-01-01T00:00:00, UTC interpretation; the engine
  performs no timezone-dependent branching, so local time is modelled as UTC).
* Calendar field access (getFullYear / getMonth / getDate / getDay) and field
  update (setDate / setMonth / setFullYear) follow the proleptic Gregorian
  calendar with JavaScript's out-of-range normalisation (e.g. setMonth on
  Jan 31 by +1 lands on Mar 2/3, because February has fewer than 31 days).
* JavaScript strings are modelled as `List Char`.
* Optional / possibly-absent JS object fields are modelled with `Option`;
  the JS truthiness tests of the source are reproduced at each use site
  (0, the empty string and undefined are falsy).
* The NaN results of parseInt on garbage are modelled with `Option Int`
  (none = NaN); an Invalid Date is modelled as `none` where it matters
  (comparisons against an Invalid Date are always false in JS).
-/

namespace Recur

/-- JavaScript string, modelled as its character list. -/
abbrev Str := List Char

/-- Milliseconds per day. -/
def msPerDay : Int := 86400000

/-- Milliseconds per week (the 7 * 86400000 of the source). -/
def msPerWeek : Int := 604800000

/-- Day index (days since 1970-01-01) of a timestamp, floor convention. -/
def dateDays (t : Int) : Int := t / msPerDay

/-- Millisecond-of-day of a timestamp, in [0, 86400000). -/
def dateMs (t : Int) : Int := t % msPerDay

/-- Gregorian leap-year test. -/
def isLeap (y : Int) : Bool := (y % 4 == 0 && y % 100 != 0) || y % 400 == 0

/-- Length of month m (1..12) of year y. -/
def daysInMonth (y m : Int) : Int :=
  if m = 2 then (if isLeap y then 29 else 28)
  else if m = 4 ∨ m = 6 ∨ m = 9 ∨ m = 11 then 30
  else 31

/-- Days of the year strictly before month m (1..12). -/
def daysBefore (leap : Bool) (m : Int) : Int :=
  let l : Int := if leap then 1 else 0
  if m ≤ 1 then 0
  else if m = 2 then 31
  else if m = 3 then 59 + l
  else if m = 4 then 90 + l
  else if m = 5 then 120 + l
  else if m = 6 then 151 + l
  else if m = 7 then 181 + l
  else if m = 8 then 212 + l
  else if m = 9 then 243 + l
  else if m = 10 then 273 + l
  else if m = 11 then 304 + l
  else 334 + l

/-- Number of days in the proleptic Gregorian years [0, y). -/
def gdays (y : Int) : Int := 365 * y + (y + 3) / 4 - (y + 99) / 100 + (y + 399) / 400

/-- Days from 0000-01-01 to the Unix epoch 1970-01-01. -/
def epochShift : Int := 719528

/-- A calendar date: year, month 1..12, day 1..daysInMonth. -/
structure Civil where
  y : Int
  m : Int
  d : Int
deriving DecidableEq, Repr

/-- Day index (days since the epoch) of a calendar date; out-of-range d
normalises by day offset exactly as a JS Date constructed field-wise does. -/
def daysFromCivil (y m d : Int) : Int :=
  gdays y + daysBefore (isLeap y) m + d - 1 - epochShift

/-- The year containing absolute day N (N counted from 0000-01-01):
approximate by the average Gregorian year length, then correct upward. -/
def yearOfAbsDay (N : Int) : Int :=
  let y0 := (400 * N) / 146097 - 1
  let y1 := if gdays (y0 + 1) ≤ N then y0 + 1 else y0
  if gdays (y1 + 1) ≤ N then y1 + 1 else y1

/-- Month and day from a day-of-year (0-based) given the leap indicator l. -/
def civilOfDoy (y l doy : Int) : Civil :=
  if doy < 31 then ⟨y, 1, doy + 1⟩
  else if doy < 59 + l then ⟨y, 2, doy - 30⟩
  else if doy < 90 + l then ⟨y, 3, doy - 58 - l⟩
  else if doy < 120 + l then ⟨y, 4, doy - 89 - l⟩
  else if doy < 151 + l then ⟨y, 5, doy - 119 - l⟩
  else if doy < 181 + l then ⟨y, 6, doy - 150 - l⟩
  else if doy < 212 + l then ⟨y, 7, doy - 180 - l⟩
  else if doy < 243 + l then ⟨y, 8, doy - 211 - l⟩
  else if doy < 273 + l then ⟨y, 9, doy - 242 - l⟩
  else if doy < 304 + l then ⟨y, 10, doy - 272 - l⟩
  else if doy < 334 + l then ⟨y, 11, doy - 303 - l⟩
  else ⟨y, 12, doy - 333 - l⟩

/-- The calendar date of a day index (inverse of daysFromCivil). -/
def civilFromDays (n : Int) : Civil :=
  let N := n + epochShift
  let y := yearOfAbsDay N
  civilOfDoy y (if isLeap y then 1 else 0) (N - gdays y)

/-- Date.prototype.getDay: weekday 0=Sunday..6=Saturday (1970-01-01 was a
Thursday, weekday 4). -/
def jsGetDay (t : Int) : Int := (dateDays t + 4) % 7

/-- Decimal digit character. -/
def digitChar (n : Nat) : Char := Char.ofNat (48 + n % 10)

/-- Decimal digits of a natural number (JS number-to-string for integers). -/
def natToDigits (n : Nat) : Str :=
  if _h : n < 10 then [digitChar n]
  else natToDigits (n / 10) ++ [digitChar (n % 10)]
decreasing_by exact Nat.div_lt_self (by omega) (by omega)

/-- JS string conversion of an integer. -/
def intToStr (i : Int) : Str :=
  if i < 0 then '-' :: natToDigits i.natAbs else natToDigits i.toNat

/-- ASCII digit test. -/
def isDigitCh (c : Char) : Bool := 48 ≤ c.toNat && c.toNat ≤ 57

/-- Numeric value of a digit character. -/
def digitVal (c : Char) : Int := (c.toNat : Int) - 48

/-- JS whitespace test (the characters relevant to parseInt trimming). -/
def isSpaceCh (c : Char) : Bool := c == ' ' || c == '\t' || c == '\n' || c == '\r'

/-- Value of the longest digit prefix; none when it is empty. -/
def parseDigits (l : Str) : Option Int :=
  let ds := l.takeWhile isDigitCh
  if ds.isEmpty then none
  else some (ds.foldl (fun a c => a * 10 + digitVal c) 0)

/-- parseInt(s, 10): skip leading whitespace, optional sign, then the longest
digit prefix; none models NaN (no digits found). -/
def parseIntJS (s : Str) : Option Int :=
  match s.dropWhile isSpaceCh with
  | [] => none
  | c :: r =>
    if c == '-' then (parseDigits r).map (fun v => -v)
    else if c == '+' then parseDigits r
    else parseDigits (c :: r)

/-- String.prototype.split with a single-character separator. -/
def splitOnCharAux (c : Char) : Str → Str → List Str
  | [], acc => [acc.reverse]
  | x :: xs, acc =>
    if x == c then acc.reverse :: splitOnCharAux c xs []
    else splitOnCharAux c xs (x :: acc)

/-- JS split: "a;b".split(";") = ["a","b"], "".split(";") = [""]. -/
def splitOnChar (c : Char) (s : Str) : List Str := splitOnCharAux c s []

/-- Array.prototype.join with a single-character separator. -/
def joinWithChar (c : Char) : List Str → Str
  | [] => []
  | [x] => x
  | x :: y :: ys => x ++ c :: joinWithChar c (y :: ys)

/-- String.prototype.trim. -/
def trimStr (s : Str) : Str :=
  ((s.dropWhile isSpaceCh).reverse.dropWhile isSpaceCh).reverse

/-- The recurrence frequencies produced by the application. -/
inductive Frequency
  | never
  | daily
  | weekly
  | monthly
  | yearly
deriving DecidableEq, Repr

/-- The end conditions of a recurrence rule; onDate is the JS string "on". -/
inductive EndCondition
  | never
  | after
  | onDate
deriving DecidableEq, Repr

/-- A recurrence rule object. Absent JS fields are none; endDate is the
date string (e.g. "2026-12-31") the application stores. -/
structure RecurrenceRule where
  frequency : Frequency
  interval : Option Int := none
  daysOfWeek : Option (List Int) := none
  endCondition : EndCondition := EndCondition.never
  endCount : Option Int := none
  endDate : Option Str := none
deriving DecidableEq, Repr

/-- A calendar event. The JS field named end is called stop here (end is a
Lean keyword); start and stop are the timestamps the stored ISO strings
denote. -/
structure Event where
  id : Str
  title : Str := []
  start : Int
  stop : Option Int := none
  allDay : Option Bool := none
  location : Option Str := none
  description : Option Str := none
  color : Option Str := none
  reminders : Option (List Int) := none
  recurrence : Option RecurrenceRule := none
deriving DecidableEq, Repr

/-- One generated occurrence. The source stores start/end as toISOString()
strings; they are modelled by the timestamps those strings denote. -/
structure EventInstance where
  id : Str
  parentId : Str
  title : Str
  start : Int
  stop : Option Int
  allDay : Bool
  location : Str
  description : Str
  color : Str
  reminders : List Int
  isRecurringInstance : Bool
deriving DecidableEq, Repr

/-- createInstance(parentEvent, date, duration, index). -/
def createInstance (parent : Event) (date : Int) (duration : Int) (index : Nat) :
    EventInstance :=
  { id := parent.id ++ "-instance-".data ++ natToDigits index
    parentId := parent.id
    title := parent.title
    start := date
    stop := if 0 < duration then some (date + duration) else none
    allDay := parent.allDay.getD false
    location := parent.location.getD []
    description := parent.description.getD []
    color := parent.color.getD []
    reminders := parent.reminders.getD []
    isRecurringInstance := true }

/-- var interval = rec.interval || 1 (0 and undefined are falsy). -/
def effInterval (rec : RecurrenceRule) : Int :=
  match rec.interval with
  | none => 1
  | some v => if v = 0 then 1 else v

/-- rec.daysOfWeek && rec.daysOfWeek.length > 0. -/
def hasExplicitDays (rec : RecurrenceRule) : Bool :=
  match rec.daysOfWeek with
  | some l => !l.isEmpty
  | none => false

/-- The for-loop of the weekly branch of getNextDate: try offsets i = 1..7 in
order; at the first offset whose weekday is in the set, test the (always-true)
alignment disjunct weeksDiff % interval == 0 || i <= 7 and return. -/
def weeklyScan (cur origStart : Int) (days : List Int) (interval : Int) :
    List Nat → Option Int
  | [] => none
  | i :: rest =>
    let test := cur + (i : Int) * msPerDay
    if days.contains (jsGetDay test) then
      if (test - origStart) / msPerWeek % interval = 0 ∨ (i : Int) ≤ 7 then some test
      else weeklyScan cur origStart days interval rest
    else weeklyScan cur origStart days interval rest

/-- Timestamp-day of the JS call date.setMonth(m0) on a date in year y with
day-of-month d: months normalise over years, the day offset carries over. -/
def setMonthDays (y m0 d : Int) : Int :=
  let t := y * 12 + m0
  daysFromCivil (t / 12) (t % 12 + 1) 1 + (d - 1)

/-- The monthly branch of getNextDate: setMonth(getMonth() + interval), then
clamp with setDate(min(originalStart.getDate(), lastDayOfResultMonth)) where
the last day is computed as new Date(y, m + 1, 0).getDate(). -/
def monthlyStep (cur : Int) (interval : Int) (origStart : Int) : Int :=
  let c := civilFromDays (dateDays cur)
  let interDays := setMonthDays c.y (c.m - 1 + interval) c.d
  let c1 := civilFromDays interDays
  let maxDay := (civilFromDays (setMonthDays c1.y c1.m 0)).d
  let targetDay := (civilFromDays (dateDays origStart)).d
  let clamped := if targetDay ≤ maxDay then targetDay else maxDay
  (daysFromCivil c1.y c1.m 1 + (clamped - 1)) * msPerDay + dateMs cur

/-- The yearly branch: setFullYear(getFullYear() + interval), keeping month
and day-of-month (Feb 29 overflowing into Mar 1 in a non-leap target year). -/
def yearlyStep (cur : Int) (interval : Int) : Int :=
  let c := civilFromDays (dateDays cur)
  (daysFromCivil (c.y + interval) c.m 1 + (c.d - 1)) * msPerDay + dateMs cur

/-- getNextDate(current, rec, originalStart). -/
def getNextDate (cur : Int) (rec : RecurrenceRule) (origStart : Int) : Int :=
  let interval := effInterval rec
  match rec.frequency with
  | Frequency.daily => cur + interval * msPerDay
  | Frequency.weekly =>
    if hasExplicitDays rec then
      match weeklyScan cur origStart (rec.daysOfWeek.getD []) interval [1, 2, 3, 4, 5, 6, 7] with
      | some t => t
      | none => cur + 7 * interval * msPerDay
    else cur + 7 * interval * msPerDay
  | Frequency.monthly => monthlyStep cur interval origStart
  | Frequency.yearly => yearlyStep cur interval
  | Frequency.never => cur + msPerDay

/-- new Date(str) for the date-only ISO form YYYY-MM-DD the application
stores; anything else yields an Invalid Date, modelled as none (an Invalid
Date compares false against everything, like NaN). -/
def jsParseISODate (s : Str) : Option Int :=
  match s with
  | [y1, y2, y3, y4, h1, m1, m2, h2, d1, d2] =>
    if isDigitCh y1 && isDigitCh y2 && isDigitCh y3 && isDigitCh y4 && h1 == '-' &&
       isDigitCh m1 && isDigitCh m2 && h2 == '-' && isDigitCh d1 && isDigitCh d2 then
      let y := 1000 * digitVal y1 + 100 * digitVal y2 + 10 * digitVal y3 + digitVal y4
      let m := 10 * digitVal m1 + digitVal m2
      let d := 10 * digitVal d1 + digitVal d2
      if 1 ≤ m ∧ m ≤ 12 ∧ 1 ≤ d ∧ d ≤ daysInMonth y m then
        some (daysFromCivil y m d * msPerDay)
      else none
    else none
  | _ => none

/-- The recEnd of generateInstances: for endCondition "on" with a truthy
endDate, the parsed date moved to 23:59:59.999 by setHours; none both when
the condition is absent and when the date string is invalid (in JS the
comparison against the resulting Invalid Date is always false). -/
def recEndOf (rec : RecurrenceRule) : Option Int :=
  match rec.endCondition, rec.endDate with
  | EndCondition.onDate, some s =>
    if s.isEmpty then none
    else
      match jsParseISODate s with
      | some t => some (t + (msPerDay - 1))
      | none => none
  | _, _ => none

/-- The recCount of generateInstances: rec.endCondition === "after" &&
rec.endCount ? rec.endCount : null (endCount 0 is falsy). -/
def recCountOf (rec : RecurrenceRule) : Option Int :=
  match rec.endCondition, rec.endCount with
  | EndCondition.after, some c => if c = 0 then none else some c
  | _, _ => none

/-- The while-loop body of generateInstances. The JS guard count <
maxInstances is carried by the fuel argument, which generateInstances starts
at maxInstances = 1000 so that fuel = 1000 - count throughout. -/
def genLoop (parent : Event) (rec : RecurrenceRule) (startRange endRange : Int)
    (recEnd recCount : Option Int) (evStart : Int) (dur : Int) :
    Nat → Int → Nat → List EventInstance
  | 0, _, _ => []
  | fuel + 1, cur, count =>
    if cur ≤ endRange then
      if match recEnd with | some e => decide (e < cur) | none => false then []
      else if match recCount with | some n => decide (n ≤ (count : Int)) | none => false then []
      else
        (if startRange ≤ cur ∨ (0 < dur ∧ startRange ≤ cur + dur) then
          if rec.frequency = Frequency.weekly ∧ hasExplicitDays rec = true then
            if (rec.daysOfWeek.getD []).contains (jsGetDay cur) then
              [createInstance parent cur dur count]
            else []
          else [createInstance parent cur dur count]
        else []) ++
        genLoop parent rec startRange endRange recEnd recCount evStart dur fuel
          (getNextDate cur rec evStart) (count + 1)
    else []

/-- generateInstances(parentEvent, startRange, endRange). -/
def generateInstances (parent : Event) (startRange endRange : Int) :
    List EventInstance :=
  match parent.recurrence with
  | none => []
  | some rec =>
    if rec.frequency = Frequency.never then []
    else
      let evStart := parent.start
      let dur := match parent.stop with | some e => e - evStart | none => 0
      genLoop parent rec startRange endRange (recEndOf rec) (recCountOf rec)
        evStart dur 1000 evStart 0

/-- The k-th occurrence cursor position: the value of current after k
iterations of the loop (occurrence 0 is the parent start itself). -/
def occurrence (rec : RecurrenceRule) (evStart : Int) : Nat → Int
  | 0 => evStart
  | k + 1 => getNextDate (occurrence rec evStart k) rec evStart

/-- The two-letter weekday codes, indexed by weekday number. -/
def dayCodes : List Str :=
  ["SU".data, "MO".data, "TU".data, "WE".data, "TH".data, "FR".data, "SA".data]

/-- dayMap[d] of toRRule; outside 0..6 the JS lookup gives undefined, which
Array.prototype.join renders as the empty string. -/
def dayCode (d : Int) : Str :=
  if 0 ≤ d ∧ d < 7 then dayCodes.getD d.toNat [] else []

/-- dayMap[code] of fromRRule. -/
def dayCodeToNum (s : Str) : Option Int :=
  if s = "SU".data then some 0
  else if s = "MO".data then some 1
  else if s = "TU".data then some 2
  else if s = "WE".data then some 3
  else if s = "TH".data then some 4
  else if s = "FR".data then some 5
  else if s = "SA".data then some 6
  else none

/-- freqMap[rec.frequency] || "DAILY" of toRRule (never is filtered out by
the early return before the map is consulted). -/
def freqCode : Frequency → Str
  | Frequency.daily => "DAILY".data
  | Frequency.weekly => "WEEKLY".data
  | Frequency.monthly => "MONTHLY".data
  | Frequency.yearly => "YEARLY".data
  | Frequency.never => "DAILY".data

/-- freqMap[val] || "daily" of fromRRule. -/
def codeToFreq (s : Str) : Frequency :=
  if s = "DAILY".data then Frequency.daily
  else if s = "WEEKLY".data then Frequency.weekly
  else if s = "MONTHLY".data then Frequency.monthly
  else if s = "YEARLY".data then Frequency.yearly
  else Frequency.daily

/-- The pad helper of formatICSDate and parseICSDate: two digits via a
leading zero for n < 10 (negative n keeps its sign after the zero, as the
JS string concatenation does). -/
def padJS (n : Int) : Str := if n < 10 then '0' :: intToStr n else intToStr n

/-- formatICSDate(d): local fields printed as YYYYMMDDTHHmmss. -/
def formatICSDate (t : Int) : Str :=
  let c := civilFromDays (dateDays t)
  let ms := dateMs t
  intToStr c.y ++ padJS c.m ++ padJS c.d ++
    'T' :: (padJS (ms / 3600000) ++ padJS (ms % 3600000 / 60000) ++ padJS (ms % 60000 / 1000))

/-- str.replace("Z", ""): remove the first Z only. -/
def removeFirstZ : Str → Str
  | [] => []
  | c :: cs => if c == 'Z' then cs else c :: removeFirstZ cs

/-- parseICSDate(str): parse YYYYMMDD[THHmmss[Z]] positionally and re-emit
the date part as YYYY-MM-DD. None models the null returned for an empty
string; a NaN component (garbage input) is modelled by a 0 default, a case
no claim exercises. -/
def parseICSDate (s : Str) : Option Str :=
  if s.isEmpty then none
  else
    let s1 := removeFirstZ s
    let y := (parseIntJS (s1.take 4)).getD 0
    let m := (parseIntJS ((s1.drop 4).take 2)).getD 0 - 1
    let d := (parseIntJS ((s1.drop 6).take 2)).getD 0
    some (intToStr y ++ '-' :: padJS (m + 1) ++ '-' :: padJS d)

/-- Truthiness of rec.endCount (a number: 0 is falsy). -/
def countTruthy : Option Int → Bool
  | some c => c != 0
  | none => false

/-- Truthiness of rec.endDate (a string: empty is falsy). -/
def dateTruthy : Option Str → Bool
  | some s => !s.isEmpty
  | none => false

/-- toRRule(rec). -/
def toRRule (rec : RecurrenceRule) : Str :=
  if rec.frequency = Frequency.never then []
  else
    let parts : List Str :=
      ["FREQ=".data ++ freqCode rec.frequency]
      ++ (match rec.interval with
          | some v => if 1 < v then ["INTERVAL=".data ++ intToStr v] else []
          | none => [])
      ++ (match rec.frequency, rec.daysOfWeek with
          | Frequency.weekly, some l =>
            if l.isEmpty then []
            else ["BYDAY=".data ++ joinWithChar ',' (l.map dayCode)]
          | _, _ => [])
      ++ (if rec.endCondition = EndCondition.after ∧ countTruthy rec.endCount = true then
            ["COUNT=".data ++ intToStr (rec.endCount.getD 0)]
          else if rec.endCondition = EndCondition.onDate ∧ dateTruthy rec.endDate = true then
            ["UNTIL=".data ++
              (match jsParseISODate (rec.endDate.getD []) with
               | some t => formatICSDate t
               | none => "NaNNaNNaNTNaNNaNNaN".data)]
          else [])
    joinWithChar ';' parts

/-- parseInt(val, 10) || 1 of the INTERVAL branch. -/
def jsIntervalOr1 : Option Int → Int
  | some v => if v = 0 then 1 else v
  | none => 1

/-- The rec object fromRRule starts from. -/
def initialRule : RecurrenceRule :=
  { frequency := Frequency.never, interval := some 1, endCondition := EndCondition.never }

/-- One iteration of the parts.forEach of fromRRule. -/
def applyPart (r : RecurrenceRule) (part : Str) : RecurrenceRule :=
  let kv := splitOnChar '=' part
  let key := kv.headD []
  let val := kv.get? 1
  if key = "FREQ".data then
    { r with frequency := (match val with | some v => codeToFreq v | none => Frequency.daily) }
  else if key = "INTERVAL".data then
    { r with interval := some (jsIntervalOr1 (val.bind parseIntJS)) }
  else if key = "BYDAY".data then
    let ds := (splitOnChar ',' (val.getD [])).filterMap (fun t => dayCodeToNum (trimStr t))
    { r with daysOfWeek := some ds }
  else if key = "COUNT".data then
    { r with endCondition := EndCondition.after, endCount := val.bind parseIntJS }
  else if key = "UNTIL".data then
    { r with endCondition := EndCondition.onDate, endDate := parseICSDate (val.getD []) }
  else r

/-- fromRRule(rrule). -/
def fromRRule (s : Str) : RecurrenceRule :=
  if s.isEmpty then { frequency := Frequency.never }
  else (splitOnChar ';' s).foldl applyPart initialRule

/-- One iteration of the parts.forEach of fromRRule with the error path
kept: a BYDAY part carrying no "=" value makes the JS code call
undefined.split(","), throwing a TypeError, modelled as none. Every other
key tolerates a missing value (freqMap[undefined] falls back through || to
daily, parseInt(undefined) is NaN, parseICSDate(undefined) is null). -/
def applyPartE (r : RecurrenceRule) (part : Str) : Option RecurrenceRule :=
  if (splitOnChar '=' part).headD [] = "FREQ".data then
    some { r with frequency := (match (splitOnChar '=' part).get? 1 with | some v => codeToFreq v | none => Frequency.daily) }
  else if (splitOnChar '=' part).headD [] = "INTERVAL".data then
    some { r with interval := some (jsIntervalOr1 (((splitOnChar '=' part).get? 1).bind parseIntJS)) }
  else if (splitOnChar '=' part).headD [] = "BYDAY".data then
    match (splitOnChar '=' part).get? 1 with
    | none => none
    | some v => some { r with daysOfWeek := some ((splitOnChar ',' v).filterMap (fun t => dayCodeToNum (trimStr t))) }
  else if (splitOnChar '=' part).headD [] = "COUNT".data then
    some { r with endCondition := EndCondition.after, endCount := ((splitOnChar '=' part).get? 1).bind parseIntJS }
  else if (splitOnChar '=' part).headD [] = "UNTIL".data then
    some { r with endCondition := EndCondition.onDate, endDate := parseICSDate (((splitOnChar '=' part).get? 1).getD []) }
  else some r

/-- The parts.forEach of fromRRule with exception propagation: none as
soon as one part throws. -/
def fromRRuleParts : RecurrenceRule → List Str → Option RecurrenceRule
  | r, [] => some r
  | r, p :: rest =>
    match applyPartE r p with
    | none => none
    | some r1 => fromRRuleParts r1 rest

/-- fromRRule(rrule) with the TypeError of a valueless BYDAY part modelled
as none rather than collapsed; fromRRule above is the total variant, fit
for inputs that cannot reach the throwing path. -/
def fromRRuleE (s : Str) : Option RecurrenceRule :=
  if s.isEmpty then some { frequency := Frequency.never }
  else fromRRuleParts initialRule (splitOnChar ';' s)

/-! ## Concrete inputs used by witnesses and counterexamples -/

/-- Timestamp of a calendar date plus a millisecond-of-day offset. -/
def mkTs (y m d : Int) (ms : Int := 0) : Int := daysFromCivil y m d * msPerDay + ms

/-- The recurrence rule of the spec scenario: daily, five occurrences. -/
def ruleScenario : RecurrenceRule :=
  { frequency := Frequency.daily, interval := some 1
    endCondition := EndCondition.after, endCount := some 5 }

/-- The scenario event of the spec: 2026-01-15T09:00, one hour long, daily,
five occurrences. -/
def evScenario : Event :=
  { id := "e1".data
    start := mkTs 2026 1 15 32400000
    stop := some (mkTs 2026 1 15 36000000)
    recurrence := some ruleScenario }

/-- An event starting Sat 2026-01-31 repeating monthly. -/
def evJan31 : Event :=
  { id := "e2".data
    start := mkTs 2026 1 31
    recurrence := some { frequency := Frequency.monthly, interval := some 1 } }

/-- An event starting Mon 2024-01-01, weekly every second week on Mondays. -/
def evBiweeklyMon : Event :=
  { id := "e3".data
    start := mkTs 2024 1 1
    recurrence := some
      { frequency := Frequency.weekly, interval := some 2, daysOfWeek := some [1] } }

/-- An event starting Mon 2024-01-01, weekly on Wednesdays, two occurrences. -/
def evWedCount2 : Event :=
  { id := "e4".data
    start := mkTs 2024 1 1
    recurrence := some
      { frequency := Frequency.weekly, interval := some 1, daysOfWeek := some [3]
        endCondition := EndCondition.after, endCount := some 2 } }

/-- A daily event from 2026-01-15 with the given interval field, capped at
two occurrences. -/
def evDailyInterval (v : Int) : Event :=
  { id := "e5".data
    start := mkTs 2026 1 15
    recurrence := some
      { frequency := Frequency.daily, interval := some v
        endCondition := EndCondition.after, endCount := some 2 } }

/-- A daily rule carrying interval 0 (falsy), for the zero-interval witness. -/
def ruleZeroInt : RecurrenceRule :=
  { frequency := Frequency.daily, interval := some 0
    endCondition := EndCondition.after, endCount := some 2 }

/-- An event carrying ruleZeroInt. -/
def evZeroInt : Event :=
  { id := "e6".data, start := mkTs 2026 1 15, recurrence := some ruleZeroInt }

/-- The round-trip example rule of the spec. -/
def ruleWeekly2MoWe5 : RecurrenceRule :=
  { frequency := Frequency.weekly, interval := some 2, daysOfWeek := some [1, 3]
    endCondition := EndCondition.after, endCount := some 5 }

/-- Rule equivalence in the sense of the round-trip property: same frequency,
same effective interval, same weekday set, same end condition and end value. -/
def ruleEquiv (a b : RecurrenceRule) : Prop :=
  a.frequency = b.frequency ∧ effInterval a = effInterval b ∧
  a.daysOfWeek.getD [] = b.daysOfWeek.getD [] ∧
  a.endCondition = b.endCondition ∧
  (a.endCondition = EndCondition.after → a.endCount = b.endCount) ∧
  (a.endCondition = EndCondition.onDate → a.endDate = b.endDate)

/-- Last two decimal digits of a number (for 0 ≤ n ≤ 99 its print form). -/
def digit2 (n : Int) : Str := [digitChar (n.toNat / 10), digitChar n.toNat]

/-- Last four decimal digits (for 1000 ≤ n ≤ 9999 its print form). -/
def digit4 (n : Int) : Str :=
  [digitChar (n.toNat / 1000), digitChar (n.toNat / 100), digitChar (n.toNat / 10),
   digitChar n.toNat]

/-- The canonical YYYY-MM-DD date string the application stores. -/
def canonicalDate (y m d : Int) : Str := digit4 y ++ '-' :: digit2 m ++ '-' :: digit2 d

/-- The key of one semicolon-separated RRULE part. -/
def partKey (part : Str) : Str := (splitOnChar '=' part).headD []

/-! ## Theorems -/

/-! ### Calendar correctness of the date model -/

theorem gdays_step (y : Int) :
    gdays (y + 1) = gdays y + 365 + (if isLeap y then 1 else 0) := by
  unfold gdays isLeap
  split <;> rename_i h <;>
    simp only [Bool.or_eq_true, Bool.and_eq_true, beq_iff_eq, bne_iff_ne, ne_eq,
      Bool.not_eq_true] at h <;> omega

theorem yearOfAbsDay_spec (N : Int) :
    gdays (yearOfAbsDay N) ≤ N ∧ N < gdays (yearOfAbsDay N + 1) := by
  simp only [yearOfAbsDay, gdays]
  split_ifs <;> omega

theorem civilOfDoy_eq1 (y l doy : Int) (c1 : doy < 31) :
    civilOfDoy y l doy = ⟨y, 1, doy + 1⟩ := by
  unfold civilOfDoy; rw [if_pos c1]

theorem civilOfDoy_eq2 (y l doy : Int) (c1 : ¬doy < 31) (c2 : doy < 59 + l) :
    civilOfDoy y l doy = ⟨y, 2, doy - 30⟩ := by
  unfold civilOfDoy; rw [if_neg c1, if_pos c2]

theorem civilOfDoy_eq3 (y l doy : Int) (c1 : ¬doy < 31) (c2 : ¬doy < 59 + l)
    (c3 : doy < 90 + l) : civilOfDoy y l doy = ⟨y, 3, doy - 58 - l⟩ := by
  unfold civilOfDoy; rw [if_neg c1, if_neg c2, if_pos c3]

theorem civilOfDoy_eq4 (y l doy : Int) (c1 : ¬doy < 31) (c2 : ¬doy < 59 + l)
    (c3 : ¬doy < 90 + l) (c4 : doy < 120 + l) :
    civilOfDoy y l doy = ⟨y, 4, doy - 89 - l⟩ := by
  unfold civilOfDoy; rw [if_neg c1, if_neg c2, if_neg c3, if_pos c4]

theorem civilOfDoy_eq5 (y l doy : Int) (c1 : ¬doy < 31) (c2 : ¬doy < 59 + l)
    (c3 : ¬doy < 90 + l) (c4 : ¬doy < 120 + l) (c5 : doy < 151 + l) :
    civilOfDoy y l doy = ⟨y, 5, doy - 119 - l⟩ := by
  unfold civilOfDoy; rw [if_neg c1, if_neg c2, if_neg c3, if_neg c4, if_pos c5]

theorem civilOfDoy_eq6 (y l doy : Int) (c1 : ¬doy < 31) (c2 : ¬doy < 59 + l)
    (c3 : ¬doy < 90 + l) (c4 : ¬doy < 120 + l) (c5 : ¬doy < 151 + l)
    (c6 : doy < 181 + l) : civilOfDoy y l doy = ⟨y, 6, doy - 150 - l⟩ := by
  unfold civilOfDoy
  rw [if_neg c1, if_neg c2, if_neg c3, if_neg c4, if_neg c5, if_pos c6]

theorem civilOfDoy_eq7 (y l doy : Int) (c1 : ¬doy < 31) (c2 : ¬doy < 59 + l)
    (c3 : ¬doy < 90 + l) (c4 : ¬doy < 120 + l) (c5 : ¬doy < 151 + l)
    (c6 : ¬doy < 181 + l) (c7 : doy < 212 + l) :
    civilOfDoy y l doy = ⟨y, 7, doy - 180 - l⟩ := by
  unfold civilOfDoy
  rw [if_neg c1, if_neg c2, if_neg c3, if_neg c4, if_neg c5, if_neg c6, if_pos c7]

theorem civilOfDoy_eq8 (y l doy : Int) (c1 : ¬doy < 31) (c2 : ¬doy < 59 + l)
    (c3 : ¬doy < 90 + l) (c4 : ¬doy < 120 + l) (c5 : ¬doy < 151 + l)
    (c6 : ¬doy < 181 + l) (c7 : ¬doy < 212 + l) (c8 : doy < 243 + l) :
    civilOfDoy y l doy = ⟨y, 8, doy - 211 - l⟩ := by
  unfold civilOfDoy
  rw [if_neg c1, if_neg c2, if_neg c3, if_neg c4, if_neg c5, if_neg c6, if_neg c7,
    if_pos c8]

theorem civilOfDoy_eq9 (y l doy : Int) (c1 : ¬doy < 31) (c2 : ¬doy < 59 + l)
    (c3 : ¬doy < 90 + l) (c4 : ¬doy < 120 + l) (c5 : ¬doy < 151 + l)
    (c6 : ¬doy < 181 + l) (c7 : ¬doy < 212 + l) (c8 : ¬doy < 243 + l)
    (c9 : doy < 273 + l) : civilOfDoy y l doy = ⟨y, 9, doy - 242 - l⟩ := by
  unfold civilOfDoy
  rw [if_neg c1, if_neg c2, if_neg c3, if_neg c4, if_neg c5, if_neg c6, if_neg c7,
    if_neg c8, if_pos c9]

theorem civilOfDoy_eq10 (y l doy : Int) (c1 : ¬doy < 31) (c2 : ¬doy < 59 + l)
    (c3 : ¬doy < 90 + l) (c4 : ¬doy < 120 + l) (c5 : ¬doy < 151 + l)
    (c6 : ¬doy < 181 + l) (c7 : ¬doy < 212 + l) (c8 : ¬doy < 243 + l)
    (c9 : ¬doy < 273 + l) (c10 : doy < 304 + l) :
    civilOfDoy y l doy = ⟨y, 10, doy - 272 - l⟩ := by
  unfold civilOfDoy
  rw [if_neg c1, if_neg c2, if_neg c3, if_neg c4, if_neg c5, if_neg c6, if_neg c7,
    if_neg c8, if_neg c9, if_pos c10]

theorem civilOfDoy_eq11 (y l doy : Int) (c1 : ¬doy < 31) (c2 : ¬doy < 59 + l)
    (c3 : ¬doy < 90 + l) (c4 : ¬doy < 120 + l) (c5 : ¬doy < 151 + l)
    (c6 : ¬doy < 181 + l) (c7 : ¬doy < 212 + l) (c8 : ¬doy < 243 + l)
    (c9 : ¬doy < 273 + l) (c10 : ¬doy < 304 + l) (c11 : doy < 334 + l) :
    civilOfDoy y l doy = ⟨y, 11, doy - 303 - l⟩ := by
  unfold civilOfDoy
  rw [if_neg c1, if_neg c2, if_neg c3, if_neg c4, if_neg c5, if_neg c6, if_neg c7,
    if_neg c8, if_neg c9, if_neg c10, if_pos c11]

theorem civilOfDoy_eq12 (y l doy : Int) (c1 : ¬doy < 31) (c2 : ¬doy < 59 + l)
    (c3 : ¬doy < 90 + l) (c4 : ¬doy < 120 + l) (c5 : ¬doy < 151 + l)
    (c6 : ¬doy < 181 + l) (c7 : ¬doy < 212 + l) (c8 : ¬doy < 243 + l)
    (c9 : ¬doy < 273 + l) (c10 : ¬doy < 304 + l) (c11 : ¬doy < 334 + l) :
    civilOfDoy y l doy = ⟨y, 12, doy - 333 - l⟩ := by
  unfold civilOfDoy
  rw [if_neg c1, if_neg c2, if_neg c3, if_neg c4, if_neg c5, if_neg c6, if_neg c7,
    if_neg c8, if_neg c9, if_neg c10, if_neg c11]

theorem daysBefore_vals (y l : Int) (hly : l = (if isLeap y then 1 else 0)) :
    daysBefore (isLeap y) 1 = 0 ∧ daysBefore (isLeap y) 2 = 31 ∧
    daysBefore (isLeap y) 3 = 59 + l ∧ daysBefore (isLeap y) 4 = 90 + l ∧
    daysBefore (isLeap y) 5 = 120 + l ∧ daysBefore (isLeap y) 6 = 151 + l ∧
    daysBefore (isLeap y) 7 = 181 + l ∧ daysBefore (isLeap y) 8 = 212 + l ∧
    daysBefore (isLeap y) 9 = 243 + l ∧ daysBefore (isLeap y) 10 = 273 + l ∧
    daysBefore (isLeap y) 11 = 304 + l ∧ daysBefore (isLeap y) 12 = 334 + l := by
  cases h : isLeap y <;> rw [h] at hly <;> norm_num at hly <;> subst hly <;>
    norm_num [daysBefore]

theorem daysInMonth_vals (y l : Int) (hly : l = (if isLeap y then 1 else 0)) :
    daysInMonth y 1 = 31 ∧ daysInMonth y 2 = 28 + l ∧ daysInMonth y 3 = 31 ∧
    daysInMonth y 4 = 30 ∧ daysInMonth y 5 = 31 ∧ daysInMonth y 6 = 30 ∧
    daysInMonth y 7 = 31 ∧ daysInMonth y 8 = 31 ∧ daysInMonth y 9 = 30 ∧
    daysInMonth y 10 = 31 ∧ daysInMonth y 11 = 30 ∧ daysInMonth y 12 = 31 := by
  cases h : isLeap y <;> rw [h] at hly <;> norm_num at hly <;> subst hly <;>
    norm_num [daysInMonth, h]

theorem civilOfDoy_spec (y l doy : Int) (hly : l = (if isLeap y then 1 else 0))
    (h0 : 0 ≤ doy) (h1 : doy < 365 + l) :
    1 ≤ (civilOfDoy y l doy).m ∧ (civilOfDoy y l doy).m ≤ 12 ∧
    1 ≤ (civilOfDoy y l doy).d ∧
    (civilOfDoy y l doy).d ≤ daysInMonth y (civilOfDoy y l doy).m ∧
    (civilOfDoy y l doy).y = y ∧
    daysBefore (isLeap y) (civilOfDoy y l doy).m + (civilOfDoy y l doy).d - 1 = doy := by
  by_cases c1 : doy < 31
  · obtain ⟨b, -, -, -, -, -, -, -, -, -, -, -⟩ := daysBefore_vals y l hly
    obtain ⟨n, -, -, -, -, -, -, -, -, -, -, -⟩ := daysInMonth_vals y l hly
    rw [civilOfDoy_eq1 y l doy c1]; dsimp only; omega
  by_cases c2 : doy < 59 + l
  · obtain ⟨-, b, -, -, -, -, -, -, -, -, -, -⟩ := daysBefore_vals y l hly
    obtain ⟨-, n, -, -, -, -, -, -, -, -, -, -⟩ := daysInMonth_vals y l hly
    rw [civilOfDoy_eq2 y l doy c1 c2]; dsimp only; omega
  by_cases c3 : doy < 90 + l
  · obtain ⟨-, -, b, -, -, -, -, -, -, -, -, -⟩ := daysBefore_vals y l hly
    obtain ⟨-, -, n, -, -, -, -, -, -, -, -, -⟩ := daysInMonth_vals y l hly
    rw [civilOfDoy_eq3 y l doy c1 c2 c3]; dsimp only; omega
  by_cases c4 : doy < 120 + l
  · obtain ⟨-, -, -, b, -, -, -, -, -, -, -, -⟩ := daysBefore_vals y l hly
    obtain ⟨-, -, -, n, -, -, -, -, -, -, -, -⟩ := daysInMonth_vals y l hly
    rw [civilOfDoy_eq4 y l doy c1 c2 c3 c4]; dsimp only; omega
  by_cases c5 : doy < 151 + l
  · obtain ⟨-, -, -, -, b, -, -, -, -, -, -, -⟩ := daysBefore_vals y l hly
    obtain ⟨-, -, -, -, n, -, -, -, -, -, -, -⟩ := daysInMonth_vals y l hly
    rw [civilOfDoy_eq5 y l doy c1 c2 c3 c4 c5]; dsimp only; omega
  by_cases c6 : doy < 181 + l
  · obtain ⟨-, -, -, -, -, b, -, -, -, -, -, -⟩ := daysBefore_vals y l hly
    obtain ⟨-, -, -, -, -, n, -, -, -, -, -, -⟩ := daysInMonth_vals y l hly
    rw [civilOfDoy_eq6 y l doy c1 c2 c3 c4 c5 c6]; dsimp only; omega
  by_cases c7 : doy < 212 + l
  · obtain ⟨-, -, -, -, -, -, b, -, -, -, -, -⟩ := daysBefore_vals y l hly
    obtain ⟨-, -, -, -, -, -, n, -, -, -, -, -⟩ := daysInMonth_vals y l hly
    rw [civilOfDoy_eq7 y l doy c1 c2 c3 c4 c5 c6 c7]; dsimp only; omega
  by_cases c8 : doy < 243 + l
  · obtain ⟨-, -, -, -, -, -, -, b, -, -, -, -⟩ := daysBefore_vals y l hly
    obtain ⟨-, -, -, -, -, -, -, n, -, -, -, -⟩ := daysInMonth_vals y l hly
    rw [civilOfDoy_eq8 y l doy c1 c2 c3 c4 c5 c6 c7 c8]; dsimp only; omega
  by_cases c9 : doy < 273 + l
  · obtain ⟨-, -, -, -, -, -, -, -, b, -, -, -⟩ := daysBefore_vals y l hly
    obtain ⟨-, -, -, -, -, -, -, -, n, -, -, -⟩ := daysInMonth_vals y l hly
    rw [civilOfDoy_eq9 y l doy c1 c2 c3 c4 c5 c6 c7 c8 c9]; dsimp only; omega
  by_cases c10 : doy < 304 + l
  · obtain ⟨-, -, -, -, -, -, -, -, -, b, -, -⟩ := daysBefore_vals y l hly
    obtain ⟨-, -, -, -, -, -, -, -, -, n, -, -⟩ := daysInMonth_vals y l hly
    rw [civilOfDoy_eq10 y l doy c1 c2 c3 c4 c5 c6 c7 c8 c9 c10]; dsimp only; omega
  by_cases c11 : doy < 334 + l
  · obtain ⟨-, -, -, -, -, -, -, -, -, -, b, -⟩ := daysBefore_vals y l hly
    obtain ⟨-, -, -, -, -, -, -, -, -, -, n, -⟩ := daysInMonth_vals y l hly
    rw [civilOfDoy_eq11 y l doy c1 c2 c3 c4 c5 c6 c7 c8 c9 c10 c11]; dsimp only; omega
  · obtain ⟨-, -, -, -, -, -, -, -, -, -, -, b⟩ := daysBefore_vals y l hly
    obtain ⟨-, -, -, -, -, -, -, -, -, -, -, n⟩ := daysInMonth_vals y l hly
    have hl01 : l = 0 ∨ l = 1 := by
      cases h : isLeap y <;> rw [h] at hly <;> norm_num at hly <;> omega
    rw [civilOfDoy_eq12 y l doy c1 c2 c3 c4 c5 c6 c7 c8 c9 c10 c11]; dsimp only; omega

theorem civil_spec (n : Int) :
    1 ≤ (civilFromDays n).m ∧ (civilFromDays n).m ≤ 12 ∧
    1 ≤ (civilFromDays n).d ∧
    (civilFromDays n).d ≤ daysInMonth (civilFromDays n).y (civilFromDays n).m ∧
    (civilFromDays n).y = yearOfAbsDay (n + epochShift) ∧
    daysFromCivil (civilFromDays n).y (civilFromDays n).m (civilFromDays n).d = n := by
  have hy := yearOfAbsDay_spec (n + epochShift)
  have hstep := gdays_step (yearOfAbsDay (n + epochShift))
  have hd := civilOfDoy_spec (yearOfAbsDay (n + epochShift))
    (if isLeap (yearOfAbsDay (n + epochShift)) then 1 else 0)
    (n + epochShift - gdays (yearOfAbsDay (n + epochShift))) rfl (by omega) (by omega)
  have hcc : civilFromDays n = civilOfDoy (yearOfAbsDay (n + epochShift))
      (if isLeap (yearOfAbsDay (n + epochShift)) then 1 else 0)
      (n + epochShift - gdays (yearOfAbsDay (n + epochShift))) := rfl
  rw [hcc]
  obtain ⟨p1, p2, p3, p4, p5, p6⟩ := hd
  rw [p5]
  refine ⟨p1, p2, p3, p4, rfl, ?_⟩
  unfold daysFromCivil
  omega

/-! ### Claim theorems and supporting loop lemmas -/

/-- The loop emits at most one instance per unit of fuel. -/
theorem genLoop_length_le (parent : Event) (rec : RecurrenceRule)
    (startRange endRange : Int) (recEnd recCount : Option Int) (evStart : Int)
    (dur : Int) : ∀ (fuel : Nat) (cur : Int) (count : Nat),
    (genLoop parent rec startRange endRange recEnd recCount evStart dur
      fuel cur count).length ≤ fuel := by
  intro fuel
  induction fuel with
  | zero => intro cur count; simp [genLoop]
  | succ n ih =>
    intro cur count
    simp only [genLoop]
    split
    · split
      · simp
      · split
        · simp
        · rw [List.length_append]
          have htail := ih (getNextDate cur rec evStart) (count + 1)
          have hpush : (if startRange ≤ cur ∨ (0 < dur ∧ startRange ≤ cur + dur) then
              if rec.frequency = Frequency.weekly ∧ hasExplicitDays rec = true then
                if (rec.daysOfWeek.getD []).contains (jsGetDay cur) then
                  [createInstance parent cur dur count]
                else []
              else [createInstance parent cur dur count]
            else []).length ≤ 1 := by
            split
            · split
              · split <;> simp
              · simp
            · simp
          omega
    · simp

/-- C4: for every parent event and query range, generateInstances returns at
most 1000 instances; reaching the cap truncates silently (the function is
total and simply stops adding occurrences). -/
theorem c4_cap_enforcement (parent : Event) (startRange endRange : Int) :
    (generateInstances parent startRange endRange).length ≤ 1000 := by
  unfold generateInstances
  split
  · simp
  · split
    · simp
    · exact genLoop_length_le _ _ _ _ _ _ _ _ 1000 _ 0

/-- C6: an event whose recurrence is absent, or whose recurrence has
frequency never, generates no instances for any query range. -/
theorem c6_never_no_instances (parent : Event) (startRange endRange : Int)
    (h : parent.recurrence = none ∨
      ∃ r, parent.recurrence = some r ∧ r.frequency = Frequency.never) :
    generateInstances parent startRange endRange = [] := by
  unfold generateInstances
  rcases h with h | ⟨r, hr, hf⟩
  · rw [h]
  · rw [hr]
    simp [hf]

/-- Witness for c6_never_no_instances at a concrete never-frequency event. -/
theorem c6_never_no_instances_witness :
    generateInstances
      { id := "w".data, start := 0
        recurrence := some { frequency := Frequency.never } } 0 86400000 = [] := by
  exact c6_never_no_instances _ 0 86400000
    (Or.inr ⟨{ frequency := Frequency.never }, rfl, rfl⟩)

/-- C1: the code does not clamp a day-31 monthly series into February. For
the event starting 2026-01-31 with monthly frequency and interval 1, queried
over January through March 2026, the generated starts are Jan 31 and Mar 31:
setMonth overflows Feb 31 to Mar 3 before the clamp reads the month length,
so no February occurrence (Feb 28, per the claim) exists. -/
theorem c1_monthly_clamp_failing_eval :
    (generateInstances evJan31 (mkTs 2026 1 1) (mkTs 2026 3 31)).map
      EventInstance.start = [mkTs 2026 1 31, mkTs 2026 3 31] := by
  decide

/-- C3: the alignment disjunct of the weekly scan (weeksDiff % interval == 0
|| i <= 7) is always true because i ranges over 1..7, so the cursor never
skips 7 * interval days. For the biweekly Monday event starting Mon
2024-01-01 the code emits every Monday: Jan 1, Jan 8 and Jan 15, although
Jan 8 lies in a week not aligned with interval 2 and the claim says it must
be absent. -/
theorem c3_weekly_interval_ignored_eval :
    (generateInstances evBiweeklyMon (mkTs 2024 1 1) (mkTs 2024 1 15)).map
      EventInstance.start = [mkTs 2024 1 1, mkTs 2024 1 8, mkTs 2024 1 15] := by
  decide

/-- C2 counterexample: a weekly rule on Wednesdays with endCount = 2 whose
event starts on a Monday yields one instance, not two, over a range covering
both candidate occurrences: the start Monday consumes one unit of the count
but is filtered out by the weekday set. -/
theorem c2_exact_count_counterexample :
    (generateInstances evWedCount2 (mkTs 2024 1 1) (mkTs 2024 3 1)).length = 1 := by
  decide

/-- C7 counterexample: a non-empty RRULE with no FREQ key keeps the initial
frequency never; it is not defaulted to daily. -/
theorem c7_missing_freq_counterexample :
    (fromRRule "INTERVAL=2".data).frequency = Frequency.never := by
  decide

/-- C8 counterexample: a negative interval is not normalised to 1: rec.interval
|| 1 only replaces 0 and undefined. With interval -1 the daily cursor walks
backwards (Jan 15 then Jan 14), while interval 1 walks forwards (Jan 15 then
Jan 16), so the two runs differ. -/
theorem c8_negative_interval_counterexample :
    (generateInstances (evDailyInterval (-1)) (mkTs 2026 1 1) (mkTs 2026 2 1)).map
        EventInstance.start = [mkTs 2026 1 15, mkTs 2026 1 14] ∧
    (generateInstances (evDailyInterval 1) (mkTs 2026 1 1) (mkTs 2026 2 1)).map
        EventInstance.start = [mkTs 2026 1 15, mkTs 2026 1 16] := by
  exact ⟨by decide, by decide⟩


def monthStart (q : Int) : Int := daysFromCivil (q / 12) (q % 12 + 1) 1

theorem daysInMonth_bounds (y m : Int) : 28 ≤ daysInMonth y m ∧ daysInMonth y m ≤ 31 := by
  unfold daysInMonth
  split_ifs <;> omega

theorem daysFromCivil_day_shift (y m d : Int) :
    daysFromCivil y m d = daysFromCivil y m 1 + (d - 1) := by
  unfold daysFromCivil; ring

theorem monthStart_eq (y m : Int) (h1 : 1 ≤ m) (h2 : m ≤ 12) :
    monthStart (12 * y + (m - 1)) = daysFromCivil y m 1 := by
  have e1 : (12 * y + (m - 1)) / 12 = y := by omega
  have e2 : (12 * y + (m - 1)) % 12 = m - 1 := by omega
  have e3 : m - 1 + 1 = m := by omega
  unfold monthStart
  rw [e1, e2, e3]

theorem month_step (y m : Int) (h1 : 1 ≤ m) (h2 : m ≤ 11) :
    daysFromCivil y (m + 1) 1 = daysFromCivil y m 1 + daysInMonth y m := by
  have hly : (if isLeap y then (1 : Int) else 0) = (if isLeap y then 1 else 0) := rfl
  unfold daysFromCivil
  interval_cases m <;>
  · obtain ⟨b1, b2, b3, b4, b5, b6, b7, b8, b9, b10, b11, b12⟩ :=
      daysBefore_vals y (if isLeap y then 1 else 0) rfl
    obtain ⟨n1, n2, n3, n4, n5, n6, n7, n8, n9, n10, n11, n12⟩ :=
      daysInMonth_vals y (if isLeap y then 1 else 0) rfl
    norm_num
    omega

theorem year_step (y : Int) :
    daysFromCivil (y + 1) 1 1 = daysFromCivil y 12 1 + daysInMonth y 12 := by
  have hstep := gdays_step y
  obtain ⟨b1, -, -, -, -, -, -, -, -, -, -, b12⟩ :=
    daysBefore_vals y (if isLeap y then 1 else 0) rfl
  obtain ⟨-, -, -, -, -, -, -, -, -, -, -, n12⟩ :=
    daysInMonth_vals y (if isLeap y then 1 else 0) rfl
  have hb1 : daysBefore (isLeap (y + 1)) 1 = 0 := by
    unfold daysBefore
    norm_num
  unfold daysFromCivil
  rw [hb1]
  omega


theorem monthStart_step (q : Int) :
    monthStart (q + 1) = monthStart q + daysInMonth (q / 12) (q % 12 + 1) := by
  by_cases h : q % 12 ≤ 10
  · have e1 : (q + 1) / 12 = q / 12 := by omega
    have e2 : (q + 1) % 12 = q % 12 + 1 := by omega
    unfold monthStart
    rw [e1, e2]
    exact month_step (q / 12) (q % 12 + 1) (by omega) (by omega)
  · have h11 : q % 12 = 11 := by omega
    have e1 : (q + 1) / 12 = q / 12 + 1 := by omega
    have e2 : (q + 1) % 12 = 0 := by omega
    unfold monthStart
    rw [e1, e2, h11]
    norm_num
    exact year_step (q / 12)

theorem monthStart_add_nat (q : Int) (k : Nat) :
    monthStart q + 28 * k ≤ monthStart (q + k) := by
  induction k with
  | zero => simp
  | succ j ih =>
    have hs := monthStart_step (q + j)
    have hb := daysInMonth_bounds ((q + j) / 12) ((q + j) % 12 + 1)
    have hc : (q + (j + 1 : Nat)) = (q + j) + 1 := by push_cast; ring
    rw [hc, hs]
    push_cast
    push_cast at ih
    omega

theorem monthStart_mono (q r : Int) (h : q ≤ r) : monthStart q ≤ monthStart r := by
  have hk : q + ((r - q).toNat : Int) = r := by omega
  have h2 := monthStart_add_nat q (r - q).toNat
  rw [hk] at h2
  omega

theorem monthStart_strict (q r : Int) (h : q < r) : monthStart q + 28 ≤ monthStart r := by
  have hk : q + ((r - q).toNat : Int) = r := by omega
  have h1 : (1 : Nat) ≤ (r - q).toNat := by omega
  have h2 := monthStart_add_nat q (r - q).toNat
  rw [hk] at h2
  omega

theorem daysFromCivil_lt_next (y m d : Int) (h1 : 1 ≤ m) (h2 : m ≤ 12)
    (hd : d ≤ daysInMonth y m) :
    daysFromCivil y m d < monthStart (12 * y + (m - 1) + 1) := by
  have hs := monthStart_step (12 * y + (m - 1))
  have e1 : (12 * y + (m - 1)) / 12 = y := by omega
  have e2 : (12 * y + (m - 1)) % 12 = m - 1 := by omega
  have e3 : m - 1 + 1 = m := by omega
  rw [e1, e2, e3] at hs
  have heq := monthStart_eq y m h1 h2
  have hshift := daysFromCivil_day_shift y m d
  omega

theorem monthIndex_ge_of_ge (n q0 : Int) (h : monthStart q0 ≤ n) :
    q0 ≤ 12 * (civilFromDays n).y + ((civilFromDays n).m - 1) := by
  by_contra hlt
  push_neg at hlt
  obtain ⟨p1, p2, p3, p4, p5, p6⟩ := civil_spec n
  have hnext := daysFromCivil_lt_next (civilFromDays n).y (civilFromDays n).m
    (civilFromDays n).d p1 p2 p4
  have hmono : monthStart (12 * (civilFromDays n).y + ((civilFromDays n).m - 1) + 1) ≤
      monthStart q0 := monthStart_mono _ _ (by omega)
  omega


theorem ts_decomp (t : Int) : t = dateDays t * 86400000 + dateMs t := by
  simp only [dateDays, dateMs, msPerDay]
  omega

theorem monthlyStep_gt (cur orig : Int) (interval : Int) (hi : 1 ≤ interval) :
    cur < monthlyStep cur interval orig := by
  simp only [monthlyStep]
  obtain ⟨p1, p2, p3, p4, p5, p6⟩ := civil_spec (dateDays cur)
  set c := civilFromDays (dateDays cur) with hc
  set inter := setMonthDays c.y (c.m - 1 + interval) c.d with hinter
  obtain ⟨q1, q2, q3, q4, q5, q6⟩ := civil_spec inter
  set c1 := civilFromDays inter with hc1
  obtain ⟨r1, r2, r3, r4, r5, r6⟩ := civil_spec (setMonthDays c1.y c1.m 0)
  obtain ⟨s1, s2, s3, s4, s5, s6⟩ := civil_spec (dateDays orig)
  have hsm : inter = monthStart (c.y * 12 + (c.m - 1 + interval)) + (c.d - 1) := rfl
  have hq := monthIndex_ge_of_ge inter (c.y * 12 + (c.m - 1 + interval)) (by omega)
  rw [show civilFromDays inter = c1 from rfl] at hq
  have hms1 := monthStart_eq c1.y c1.m q1 q2
  have hlt := daysFromCivil_lt_next c.y c.m c.d p1 p2 p4
  have hmono := monthStart_mono (12 * c.y + (c.m - 1) + 1) (12 * c1.y + (c1.m - 1))
    (by omega)
  have hdec := ts_decomp cur
  simp only [msPerDay]
  split_ifs <;> omega

theorem yearlyStep_gt (cur : Int) (interval : Int) (hi : 1 ≤ interval) :
    cur < yearlyStep cur interval := by
  simp only [yearlyStep]
  obtain ⟨p1, p2, p3, p4, p5, p6⟩ := civil_spec (dateDays cur)
  set c := civilFromDays (dateDays cur) with hc
  have hlt := daysFromCivil_lt_next c.y c.m c.d p1 p2 p4
  have hms2 := monthStart_eq (c.y + interval) c.m p1 p2
  have hmono := monthStart_mono (12 * c.y + (c.m - 1) + 1)
    (12 * (c.y + interval) + (c.m - 1)) (by omega)
  have hdec := ts_decomp cur
  simp only [msPerDay]
  omega

theorem weeklyScan_gt (cur orig : Int) (days : List Int) (interval : Int) :
    ∀ (is : List Nat) (t : Int), (∀ i ∈ is, 1 ≤ i) →
      weeklyScan cur orig days interval is = some t → cur < t := by
  intro is
  induction is with
  | nil =>
    intro t _ h
    simp [weeklyScan] at h
  | cons i rest ih =>
    intro t hall h
    simp only [weeklyScan] at h
    split_ifs at h
    · have hti : t = cur + (i : Int) * msPerDay := by
        cases h
        rfl
      have hi1 : 1 ≤ i := hall i (by simp)
      have : (1 : Int) ≤ (i : Int) := by exact_mod_cast hi1
      simp only [msPerDay] at hti
      omega
    · exact ih t (fun j hj => hall j (by simp [hj])) h
    · exact ih t (fun j hj => hall j (by simp [hj])) h

theorem getNextDate_gt (cur : Int) (rec : RecurrenceRule) (orig : Int)
    (hi : 1 ≤ effInterval rec) : cur < getNextDate cur rec orig := by
  cases hf : rec.frequency <;> simp only [getNextDate, hf]
  case never => norm_num [msPerDay]
  case daily =>
    simp only [msPerDay]
    omega
  case weekly =>
    split
    · cases hw : weeklyScan cur orig (rec.daysOfWeek.getD []) (effInterval rec)
        [1, 2, 3, 4, 5, 6, 7] with
      | some t =>
        simp only [hw]
        exact weeklyScan_gt cur orig _ _ _ t (by decide) hw
      | none =>
        simp only [hw, msPerDay]
        omega
    · simp only [msPerDay]
      omega
  case monthly => exact monthlyStep_gt cur orig (effInterval rec) hi
  case yearly => exact yearlyStep_gt cur (effInterval rec) hi

end Recur

namespace Recur

theorem genLoop_invariant (parent : Event) (rec : RecurrenceRule) (sR eR : Int)
    (recEnd recCount : Option Int) (evStart dur : Int)
    (hstep : ∀ c : Int, c < getNextDate c rec evStart) :
    ∀ (fuel : Nat) (cur : Int) (count : Nat),
      (∀ x ∈ genLoop parent rec sR eR recEnd recCount evStart dur fuel cur count,
        cur ≤ x.start ∧ x.parentId = parent.id ∧ x.isRecurringInstance = true) ∧
      (genLoop parent rec sR eR recEnd recCount evStart dur fuel cur count).Pairwise
        (fun a b => a.start < b.start) := by
  intro fuel
  induction fuel with
  | zero => intro cur count; simp [genLoop]
  | succ n ih =>
    intro cur count
    obtain ⟨ih1, ih2⟩ := ih (getNextDate cur rec evStart) (count + 1)
    simp only [genLoop]
    split
    · split
      · simp
      · split
        · simp
        · have hP : (if sR ≤ cur ∨ 0 < dur ∧ sR ≤ cur + dur then
              if rec.frequency = Frequency.weekly ∧ hasExplicitDays rec = true then
                if (rec.daysOfWeek.getD []).contains (jsGetDay cur) = true then
                  [createInstance parent cur dur count]
                else []
              else [createInstance parent cur dur count]
            else []) = [] ∨
            (if sR ≤ cur ∨ 0 < dur ∧ sR ≤ cur + dur then
              if rec.frequency = Frequency.weekly ∧ hasExplicitDays rec = true then
                if (rec.daysOfWeek.getD []).contains (jsGetDay cur) = true then
                  [createInstance parent cur dur count]
                else []
              else [createInstance parent cur dur count]
            else []) = [createInstance parent cur dur count] := by
            split_ifs <;> simp
          rcases hP with hP | hP
          · rw [hP]
            simp only [List.nil_append]
            constructor
            · intro x hx
              obtain ⟨ha, hb, hc⟩ := ih1 x hx
              exact ⟨le_of_lt (lt_of_lt_of_le (hstep cur) ha), hb, hc⟩
            · exact ih2
          · rw [hP]
            simp only [List.singleton_append]
            constructor
            · intro x hx
              rcases List.mem_cons.1 hx with hx | hx
              · subst hx
                exact ⟨le_refl _, rfl, rfl⟩
              · obtain ⟨ha, hb, hc⟩ := ih1 x hx
                exact ⟨le_of_lt (lt_of_lt_of_le (hstep cur) ha), hb, hc⟩
            · rw [List.pairwise_cons]
              refine ⟨fun b hb => ?_, ih2⟩
              have := (ih1 b hb).1
              have hcur : (createInstance parent cur dur count).start = cur := rfl
              rw [hcur]
              exact lt_of_lt_of_le (hstep cur) this
    · simp

theorem c10_instance_invariants (parent : Event) (r : RecurrenceRule) (sR eR : Int)
    (hrec : parent.recurrence = some r) (hi : 1 ≤ effInterval r) :
    (∀ x ∈ generateInstances parent sR eR,
      x.parentId = parent.id ∧ x.isRecurringInstance = true) ∧
    (generateInstances parent sR eR).Pairwise (fun a b => a.start < b.start) := by
  simp only [generateInstances, hrec]
  split
  · simp
  · have hstep : ∀ c : Int, c < getNextDate c r parent.start :=
      fun c => getNextDate_gt c r parent.start hi
    have h := genLoop_invariant parent r sR eR (recEndOf r) (recCountOf r) parent.start
      (match parent.stop with | some e => e - parent.start | none => 0) hstep
      1000 parent.start 0
    exact ⟨fun x hx => ⟨(h.1 x hx).2.1, (h.1 x hx).2.2⟩, h.2⟩

theorem c10_instance_invariants_witness :
    (∀ x ∈ generateInstances evScenario (mkTs 2026 1 15) (mkTs 2026 1 20 86399999),
      x.parentId = evScenario.id ∧ x.isRecurringInstance = true) ∧
    (generateInstances evScenario (mkTs 2026 1 15)
      (mkTs 2026 1 20 86399999)).Pairwise (fun a b => a.start < b.start) :=
  c10_instance_invariants evScenario ruleScenario
    (mkTs 2026 1 15) (mkTs 2026 1 20 86399999) rfl (by decide)

end Recur

namespace Recur

theorem genLoop_le_count (parent : Event) (rec : RecurrenceRule) (sR eR : Int)
    (recEnd : Option Int) (n : Int) (evStart dur : Int) :
    ∀ (fuel : Nat) (cur : Int) (count : Nat),
      (genLoop parent rec sR eR recEnd (some n) evStart dur fuel cur count).length ≤
        (n - count).toNat := by
  intro fuel
  induction fuel with
  | zero => intro cur count; simp [genLoop]
  | succ m ih =>
    intro cur count
    simp only [genLoop]
    split
    · split
      · simp
      · split
        · simp
        · rename_i hcnt
          have hlt : ¬((n : Int) ≤ (count : Int)) := by
            intro hc
            exact hcnt (by simp [hc])
          rw [List.length_append]
          have htail := ih (getNextDate cur rec evStart) (count + 1)
          have hpush : (if sR ≤ cur ∨ 0 < dur ∧ sR ≤ cur + dur then
              if rec.frequency = Frequency.weekly ∧ hasExplicitDays rec = true then
                if (rec.daysOfWeek.getD []).contains (jsGetDay cur) = true then
                  [createInstance parent cur dur count]
                else []
              else [createInstance parent cur dur count]
            else []).length ≤ 1 := by
            split_ifs <;> simp
          omega
    · simp

theorem genLoop_exact (parent : Event) (rec : RecurrenceRule) (sR eR : Int)
    (evStart dur : Int) (n : Int)
    (hnw : ¬(rec.frequency = Frequency.weekly ∧ hasExplicitDays rec = true)) :
    ∀ (fuel : Nat) (count : Nat), (count : Int) ≤ n → n ≤ (count : Int) + (fuel : Int) →
      (∀ k : Nat, (count : Int) ≤ (k : Int) → (k : Int) < n →
        sR ≤ occurrence rec evStart k ∧ occurrence rec evStart k ≤ eR) →
      (genLoop parent rec sR eR none (some n) evStart dur fuel
        (occurrence rec evStart count) count).length = (n - count).toNat := by
  intro fuel
  induction fuel with
  | zero =>
    intro count h1 h2 _
    have : (n : Int) = count := by push_cast at h2; omega
    simp [genLoop, this]
  | succ m ih =>
    intro count h1 h2 hin
    by_cases heq : (count : Int) = n
    · simp only [genLoop]
      split
      · split
        · simp
          omega
        · split
          · simp
            omega
          · rename_i hcnt
            exfalso
            exact hcnt (by simp [heq.ge])
      · simp
        omega
    · have hlt : (count : Int) < n := lt_of_le_of_ne h1 heq
      obtain ⟨hge, hle⟩ := hin count (le_refl _) hlt
      simp only [genLoop]
      rw [if_pos hle]
      have hend : ¬((match (none : Option Int) with
          | some e => decide (e < occurrence rec evStart count)
          | none => false) = true) := by simp
      rw [if_neg hend]
      have hcnt : ¬((match (some n : Option Int) with
          | some k => decide (k ≤ (count : Int))
          | none => false) = true) := by simp; omega
      rw [if_neg hcnt]
      have hpush : (if sR ≤ occurrence rec evStart count ∨
            0 < dur ∧ sR ≤ occurrence rec evStart count + dur then
          if rec.frequency = Frequency.weekly ∧ hasExplicitDays rec = true then
            if (rec.daysOfWeek.getD []).contains
                (jsGetDay (occurrence rec evStart count)) = true then
              [createInstance parent (occurrence rec evStart count) dur count]
            else []
          else [createInstance parent (occurrence rec evStart count) dur count]
        else []) = [createInstance parent (occurrence rec evStart count) dur count] := by
        rw [if_pos (Or.inl hge), if_neg hnw]
      rw [hpush]
      have hnext : getNextDate (occurrence rec evStart count) rec evStart =
          occurrence rec evStart (count + 1) := rfl
      rw [List.singleton_append, List.length_cons, hnext]
      have htail := ih (count + 1) (by push_cast; omega) (by push_cast at h2 ⊢; omega)
        (fun k hk1 hk2 => hin k (by push_cast at hk1 ⊢; omega) hk2)
      rw [htail]
      omega

end Recur

namespace Recur

/-- C2 (amended): with endCondition after and endCount n in [1, 1000], the
engine emits at most n instances; and exactly n when every candidate is
actually emitted (the rule carries no weekly day filter) and the query range
contains all n cursor positions. -/
theorem c2_count_exact (parent : Event) (r : RecurrenceRule) (sR eR : Int) (n : Nat)
    (hrec : parent.recurrence = some r) (hnev : ¬r.frequency = Frequency.never)
    (hend : r.endCondition = EndCondition.after) (hcount : r.endCount = some (n : Int))
    (hn1 : 1 ≤ n) (hn2 : n ≤ 1000) :
    (generateInstances parent sR eR).length ≤ n ∧
    (¬(r.frequency = Frequency.weekly ∧ hasExplicitDays r = true) →
      (∀ k : Nat, (k : Int) < (n : Int) →
        sR ≤ occurrence r parent.start k ∧ occurrence r parent.start k ≤ eR) →
      (generateInstances parent sR eR).length = n) := by
  have hne : ((n : Int) = 0) = False := by simp; omega
  have hrc : recCountOf r = some (n : Int) := by
    simp only [recCountOf, hend, hcount, hne, if_false]
  have hre : recEndOf r = none := by simp [recEndOf, hend]
  simp only [generateInstances, hrec]
  rw [if_neg hnev, hrc, hre]
  constructor
  · have h := genLoop_le_count parent r sR eR none (n : Int) parent.start
      (match parent.stop with | some e => e - parent.start | none => 0)
      1000 parent.start 0
    have : ((n : Int) - ((0 : Nat) : Int)).toNat = n := by omega
    omega
  · intro hnw hin
    have h := genLoop_exact parent r sR eR parent.start
      (match parent.stop with | some e => e - parent.start | none => 0)
      (n : Int) hnw 1000 0 (by omega) (by push_cast; omega)
      (fun k _ hk2 => hin k hk2)
    have hocc0 : occurrence r parent.start 0 = parent.start := rfl
    rw [hocc0] at h
    rw [h]
    omega

/-- Witness for c2_count_exact: the spec scenario yields exactly five
instances. -/
theorem c2_count_exact_witness :
    (generateInstances evScenario (mkTs 2026 1 15)
      (mkTs 2026 1 20 86399999)).length = 5 :=
  (c2_count_exact evScenario ruleScenario (mkTs 2026 1 15) (mkTs 2026 1 20 86399999)
      5 rfl (by decide) rfl rfl (by decide) (by decide)).2 (by decide)
    (by
      intro k hk
      have hk5 : k < 5 := by exact_mod_cast hk
      interval_cases k <;> constructor <;> decide)

end Recur

namespace Recur

theorem digitChar_cases (k : Nat) :
    digitChar k = '0' ∨ digitChar k = '1' ∨ digitChar k = '2' ∨ digitChar k = '3' ∨
    digitChar k = '4' ∨ digitChar k = '5' ∨ digitChar k = '6' ∨ digitChar k = '7' ∨
    digitChar k = '8' ∨ digitChar k = '9' := by
  unfold digitChar
  have h : k % 10 < 10 := Nat.mod_lt _ (by omega)
  generalize k % 10 = r at h ⊢
  interval_cases r <;> simp

theorem isDigitCh_digitChar (k : Nat) : isDigitCh (digitChar k) = true := by
  rcases digitChar_cases k with h | h | h | h | h | h | h | h | h | h <;> rw [h] <;> decide

theorem digitVal_digitChar (k : Nat) : digitVal (digitChar k) = ((k % 10 : Nat) : Int) := by
  unfold digitChar digitVal
  have h : k % 10 < 10 := Nat.mod_lt _ (by omega)
  generalize k % 10 = r at h ⊢
  interval_cases r <;> decide

theorem natToDigits_all_digits (n : Nat) :
    ∀ c ∈ natToDigits n, isDigitCh c = true := by
  induction n using Nat.strong_induction_on with
  | _ n ih =>
    rw [natToDigits]
    split
    · intro c hc
      simp only [List.mem_singleton] at hc
      subst hc
      exact isDigitCh_digitChar n
    · intro c hc
      rcases List.mem_append.1 hc with hc | hc
      · exact ih (n / 10) (Nat.div_lt_self (by omega) (by omega)) c hc
      · simp only [List.mem_singleton] at hc
        subst hc
        exact isDigitCh_digitChar (n % 10)

theorem natToDigits_ne_nil (n : Nat) : natToDigits n ≠ [] := by
  rw [natToDigits]
  split
  · simp
  · simp

theorem natToDigits_foldl (n : Nat) : ∀ acc : Int,
    (natToDigits n).foldl (fun a c => a * 10 + digitVal c) acc =
      acc * 10 ^ (natToDigits n).length + n := by
  induction n using Nat.strong_induction_on with
  | _ n ih =>
    intro acc
    rw [natToDigits]
    split
    · rename_i h
      simp only [List.foldl_cons, List.foldl_nil, List.length_singleton]
      rw [digitVal_digitChar]
      have : n % 10 = n := Nat.mod_eq_of_lt h
      rw [this]
      ring
    · rename_i h
      rw [List.foldl_append, List.length_append]
      rw [ih (n / 10) (Nat.div_lt_self (by omega) (by omega)) acc]
      simp only [List.foldl_cons, List.foldl_nil, List.length_singleton]
      rw [digitVal_digitChar]
      have hm : (n : Int) = (n / 10 : Nat) * 10 + ((n % 10 % 10 : Nat) : Int) := by
        push_cast
        omega
      rw [pow_add, pow_one]
      push_cast
      push_cast at hm
      ring_nf
      ring_nf at hm
      omega

end Recur

namespace Recur

theorem ne_beq_of_digit (c x : Char) (h : isDigitCh c = true) (hx : isDigitCh x = false) :
    (c == x) = false := by
  by_cases hc : c = x
  · subst hc
    rw [h] at hx
    cases hx
  · exact beq_eq_false_iff_ne.2 hc

theorem not_space_of_digit (c : Char) (h : isDigitCh c = true) : isSpaceCh c = false := by
  unfold isSpaceCh
  rw [ne_beq_of_digit c ' ' h (by decide), ne_beq_of_digit c '\t' h (by decide),
    ne_beq_of_digit c '\n' h (by decide), ne_beq_of_digit c '\r' h (by decide)]
  rfl

theorem takeWhile_all {p : Char → Bool} :
    ∀ l : Str, (∀ c ∈ l, p c = true) → l.takeWhile p = l := by
  intro l
  induction l with
  | nil => intro _; rfl
  | cons c t ih =>
    intro hall
    rw [List.takeWhile_cons, hall c (List.mem_cons_self _ _)]
    simp only [if_true]
    rw [ih (fun x hx => hall x (List.mem_cons_of_mem _ hx))]

theorem parseIntJS_all_digits (l : Str) (hne : l ≠ [])
    (hall : ∀ c ∈ l, isDigitCh c = true) :
    parseIntJS l = some (l.foldl (fun a c => a * 10 + digitVal c) 0) := by
  cases l with
  | nil => exact absurd rfl hne
  | cons c t =>
    have hc := hall c (List.mem_cons_self _ _)
    unfold parseIntJS
    rw [List.dropWhile_cons_of_neg (by rw [not_space_of_digit c hc]; simp)]
    dsimp only
    rw [ne_beq_of_digit c '-' hc (by decide), ne_beq_of_digit c '+' hc (by decide)]
    simp only [Bool.false_eq_true, if_false]
    unfold parseDigits
    rw [takeWhile_all (c :: t) hall]
    simp

theorem parseIntJS_natToDigits (n : Nat) : parseIntJS (natToDigits n) = some (n : Int) := by
  rw [parseIntJS_all_digits (natToDigits n) (natToDigits_ne_nil n) (natToDigits_all_digits n)]
  rw [natToDigits_foldl n 0]
  simp

theorem parseIntJS_intToStr (v : Int) (hv : 0 ≤ v) : parseIntJS (intToStr v) = some v := by
  unfold intToStr
  rw [if_neg (by omega)]
  rw [parseIntJS_natToDigits v.toNat]
  congr 1
  omega

end Recur

namespace Recur

theorem splitOnCharAux_no_sep (c : Char) :
    ∀ (s acc : Str), c ∉ s → splitOnCharAux c s acc = [acc.reverse ++ s] := by
  intro s
  induction s with
  | nil => intro acc _; simp [splitOnCharAux]
  | cons x xs ih =>
    intro acc hmem
    have hx : (x == c) = false := by
      simp only [beq_eq_false_iff_ne, ne_eq]
      intro he
      exact hmem (he ▸ List.mem_cons_self _ _)
    simp only [splitOnCharAux, hx, Bool.false_eq_true, if_false]
    rw [ih (x :: acc) (fun hm => hmem (List.mem_cons_of_mem _ hm))]
    simp

theorem splitOnCharAux_sep (c : Char) :
    ∀ (p acc : Str) (t : Str), c ∉ p →
      splitOnCharAux c (p ++ c :: t) acc = (acc.reverse ++ p) :: splitOnChar c t := by
  intro p
  induction p with
  | nil =>
    intro acc t _
    simp only [List.nil_append, splitOnCharAux, beq_self_eq_true, if_true]
    simp [splitOnChar]
  | cons x xs ih =>
    intro acc t hmem
    have hx : (x == c) = false := by
      simp only [beq_eq_false_iff_ne, ne_eq]
      intro he
      exact hmem (he ▸ List.mem_cons_self _ _)
    simp only [List.cons_append, splitOnCharAux, hx, Bool.false_eq_true, if_false]
    show splitOnCharAux c (xs ++ c :: t) (x :: acc) = _
    rw [ih (x :: acc) t (fun hm => hmem (List.mem_cons_of_mem _ hm))]
    simp

theorem splitOnChar_joinWithChar (c : Char) :
    ∀ parts : List Str, parts ≠ [] → (∀ p ∈ parts, c ∉ p) →
      splitOnChar c (joinWithChar c parts) = parts := by
  intro parts
  induction parts with
  | nil => intro h _; exact absurd rfl h
  | cons p rest ih =>
    intro _ hall
    cases rest with
    | nil =>
      simp only [joinWithChar, splitOnChar]
      rw [splitOnCharAux_no_sep c p [] (hall p (List.mem_cons_self _ _))]
      simp
    | cons q qs =>
      simp only [joinWithChar, splitOnChar]
      rw [splitOnCharAux_sep c p [] (joinWithChar c (q :: qs))
        (hall p (List.mem_cons_self _ _))]
      simp only [List.reverse_nil, List.nil_append]
      rw [show splitOnChar c (joinWithChar c (q :: qs)) = q :: qs from
        ih (by simp) (fun x hx => hall x (List.mem_cons_of_mem _ hx))]

theorem splitOnChar_kv (key v : Str) (hkey : '=' ∉ key) (hv : '=' ∉ v) :
    splitOnChar '=' (key ++ '=' :: v) = [key, v] := by
  have h := splitOnChar_joinWithChar '=' [key, v] (by simp)
    (by
      intro p hp
      rcases List.mem_cons.1 hp with hp | hp
      · subst hp; exact hkey
      · simp only [List.mem_singleton] at hp
        subst hp; exact hv)
  simpa [joinWithChar] using h

end Recur

namespace Recur

theorem applyPart_freq (r : RecurrenceRule) (v : Str) (hv : '=' ∉ v) :
    applyPart r ("FREQ=".data ++ v) = { r with frequency := codeToFreq v } := by
  rw [show ("FREQ=".data ++ v) = ("FREQ".data ++ '=' :: v) from rfl]
  unfold applyPart
  rw [splitOnChar_kv "FREQ".data v (by decide) hv]
  simp

theorem applyPart_interval (r : RecurrenceRule) (v : Str) (hv : '=' ∉ v) :
    applyPart r ("INTERVAL=".data ++ v) =
      { r with interval := some (jsIntervalOr1 (parseIntJS v)) } := by
  rw [show ("INTERVAL=".data ++ v) = ("INTERVAL".data ++ '=' :: v) from rfl]
  unfold applyPart
  rw [splitOnChar_kv "INTERVAL".data v (by decide) hv]
  simp

theorem applyPart_byday (r : RecurrenceRule) (v : Str) (hv : '=' ∉ v) :
    applyPart r ("BYDAY=".data ++ v) =
      { r with daysOfWeek := some ((splitOnChar ',' v).filterMap (fun t => dayCodeToNum (trimStr t))) } := by
  rw [show ("BYDAY=".data ++ v) = ("BYDAY".data ++ '=' :: v) from rfl]
  unfold applyPart
  rw [splitOnChar_kv "BYDAY".data v (by decide) hv]
  simp

theorem applyPart_count (r : RecurrenceRule) (v : Str) (hv : '=' ∉ v) :
    applyPart r ("COUNT=".data ++ v) =
      { r with endCondition := EndCondition.after, endCount := parseIntJS v } := by
  rw [show ("COUNT=".data ++ v) = ("COUNT".data ++ '=' :: v) from rfl]
  unfold applyPart
  rw [splitOnChar_kv "COUNT".data v (by decide) hv]
  simp

theorem applyPart_until (r : RecurrenceRule) (v : Str) (hv : '=' ∉ v) :
    applyPart r ("UNTIL=".data ++ v) =
      { r with endCondition := EndCondition.onDate, endDate := parseICSDate v } := by
  rw [show ("UNTIL=".data ++ v) = ("UNTIL".data ++ '=' :: v) from rfl]
  unfold applyPart
  rw [splitOnChar_kv "UNTIL".data v (by decide) hv]
  simp

end Recur

namespace Recur

theorem dropWhile_all_neg {p : Char → Bool} :
    ∀ l : Str, (∀ c ∈ l, p c = false) → l.dropWhile p = l := by
  intro l
  induction l with
  | nil => intro _; rfl
  | cons c t _ =>
    intro hall
    exact List.dropWhile_cons_of_neg (by rw [hall c (List.mem_cons_self _ _)]; simp)

theorem trimStr_no_space (s : Str) (h : ∀ c ∈ s, isSpaceCh c = false) : trimStr s = s := by
  unfold trimStr
  rw [dropWhile_all_neg s h]
  rw [dropWhile_all_neg s.reverse (fun c hc => h c (List.mem_reverse.1 hc))]
  exact List.reverse_reverse s

theorem dayCode_cases (d : Int) : dayCode d = [] ∨ dayCode d ∈ dayCodes := by
  unfold dayCode
  split_ifs with h
  · right
    have hk : d.toNat < 7 := by omega
    generalize d.toNat = k at hk
    interval_cases k <;> decide
  · left; rfl

theorem dayCodes_props : ∀ s ∈ dayCodes,
    (',' ∉ s) ∧ (';' ∉ s) ∧ ('=' ∉ s) ∧ (∀ c ∈ s, isSpaceCh c = false) := by
  decide

theorem dayCodeToNum_dayCode (d : Int) (h1 : 0 ≤ d) (h2 : d < 7) :
    dayCodeToNum (dayCode d) = some d := by
  unfold dayCode
  rw [if_pos ⟨h1, h2⟩]
  have hk : d.toNat < 7 := by omega
  have hd : d = (d.toNat : Int) := by omega
  rw [hd]
  generalize d.toNat = k at hk ⊢
  interval_cases k <;> decide

theorem filterMap_dayCodes (l : List Int) (hl : ∀ d ∈ l, 0 ≤ d ∧ d < 7) :
    (l.map dayCode).filterMap (fun t => dayCodeToNum (trimStr t)) = l := by
  induction l with
  | nil => rfl
  | cons d t ih =>
    obtain ⟨h1, h2⟩ := hl d (List.mem_cons_self _ _)
    have htr : trimStr (dayCode d) = dayCode d := by
      apply trimStr_no_space
      rcases dayCode_cases d with h | h
      · rw [h]; simp
      · exact (dayCodes_props _ h).2.2.2
    simp only [List.map_cons, List.filterMap_cons, htr, dayCodeToNum_dayCode d h1 h2]
    rw [ih (fun x hx => hl x (List.mem_cons_of_mem _ hx))]

theorem byday_roundtrip (l : List Int) (hl : ∀ d ∈ l, 0 ≤ d ∧ d < 7) (hne : l ≠ []) :
    (splitOnChar ',' (joinWithChar ',' (l.map dayCode))).filterMap
      (fun t => dayCodeToNum (trimStr t)) = l := by
  rw [splitOnChar_joinWithChar ',' (l.map dayCode) (by simpa using hne)
    (by
      intro p hp
      obtain ⟨d, hd, hpd⟩ := List.mem_map.1 hp
      subst hpd
      rcases dayCode_cases d with h | h
      · rw [h]; simp
      · exact (dayCodes_props _ h).1)]
  exact filterMap_dayCodes l hl

theorem semi_not_in_natToDigits (n : Nat) : ';' ∉ natToDigits n := by
  intro h
  have := natToDigits_all_digits n ';' h
  exact absurd this (by decide)

theorem eq_not_in_natToDigits (n : Nat) : '=' ∉ natToDigits n := by
  intro h
  have := natToDigits_all_digits n '=' h
  exact absurd this (by decide)

theorem semi_not_in_intToStr (v : Int) : ';' ∉ intToStr v := by
  unfold intToStr
  split_ifs
  · intro h
    rcases List.mem_cons.1 h with h | h
    · cases h
    · exact semi_not_in_natToDigits _ h
  · exact semi_not_in_natToDigits _

theorem eq_not_in_intToStr (v : Int) : '=' ∉ intToStr v := by
  unfold intToStr
  split_ifs
  · intro h
    rcases List.mem_cons.1 h with h | h
    · cases h
    · exact eq_not_in_natToDigits _ h
  · exact eq_not_in_natToDigits _

theorem freqCode_props (f : Frequency) : (';' ∉ freqCode f) ∧ ('=' ∉ freqCode f) := by
  cases f <;> exact (by decide)

end Recur

namespace Recur

theorem civilFromDays_daysFromCivil (y m d : Int) (hm1 : 1 ≤ m) (hm2 : m ≤ 12)
    (hd1 : 1 ≤ d) (hd2 : d ≤ daysInMonth y m) :
    civilFromDays (daysFromCivil y m d) = ⟨y, m, d⟩ := by
  obtain ⟨p1, p2, p3, p4, p5, p6⟩ := civil_spec (daysFromCivil y m d)
  rcases hC : civilFromDays (daysFromCivil y m d) with ⟨Y, M, D⟩
  rw [hC] at p1 p2 p3 p4 p6
  dsimp only at p1 p2 p3 p4 p6
  have hq : 12 * Y + (M - 1) = 12 * y + (m - 1) := by
    by_contra hne
    rcases lt_or_gt_of_ne hne with hlt | hlt
    · have h1 := daysFromCivil_lt_next Y M D p1 p2 p4
      have h2 := monthStart_mono (12 * Y + (M - 1) + 1) (12 * y + (m - 1)) (by omega)
      have h3 := monthStart_eq y m hm1 hm2
      have h4 := daysFromCivil_day_shift y m d
      omega
    · have h1 := daysFromCivil_lt_next y m d hm1 hm2 hd2
      have h2 := monthStart_mono (12 * y + (m - 1) + 1) (12 * Y + (M - 1)) (by omega)
      have h3 := monthStart_eq Y M p1 p2
      have h4 := daysFromCivil_day_shift Y M D
      omega
  have hYy : Y = y := by omega
  have hMm : M = m := by omega
  subst hYy
  subst hMm
  have hDd : D = d := by
    unfold daysFromCivil at p6
    omega
  rw [hDd]

theorem digitChar_congr (a b : Nat) (h : a % 10 = b % 10) : digitChar a = digitChar b := by
  unfold digitChar
  rw [h]

theorem natToDigits_one (n : Nat) (h : n < 10) : natToDigits n = [digitChar n] := by
  rw [natToDigits, dif_pos h]

theorem natToDigits_two (n : Nat) (h1 : 10 ≤ n) (h2 : n ≤ 99) :
    natToDigits n = [digitChar (n / 10), digitChar n] := by
  rw [natToDigits, dif_neg (by omega), natToDigits, dif_pos (by omega)]
  rw [digitChar_congr (n % 10) n (by omega)]
  rfl

theorem natToDigits_four (n : Nat) (h1 : 1000 ≤ n) (h2 : n ≤ 9999) :
    natToDigits n =
      [digitChar (n / 1000), digitChar (n / 100), digitChar (n / 10), digitChar n] := by
  rw [natToDigits, dif_neg (by omega), natToDigits, dif_neg (by omega),
    natToDigits, dif_neg (by omega), natToDigits, dif_pos (by omega)]
  rw [digitChar_congr (n % 10) n (by omega),
    digitChar_congr (n / 10 % 10) (n / 10) (by omega),
    digitChar_congr (n / 10 / 10 % 10) (n / 100) (by omega),
    digitChar_congr (n / 10 / 10 / 10) (n / 1000) (by omega)]
  rfl

theorem padJS_eq_digit2 (v : Int) (h1 : 0 ≤ v) (h2 : v ≤ 99) : padJS v = digit2 v := by
  unfold padJS digit2 intToStr
  rw [if_neg (show ¬v < 0 by omega)]
  by_cases ha : v < 10
  · rw [if_pos ha, natToDigits_one v.toNat (by omega),
      digitChar_congr (v.toNat / 10) 0 (by omega),
      show digitChar 0 = '0' from by decide]
  · rw [if_neg ha, natToDigits_two v.toNat (by omega) (by omega)]

theorem intToStr_eq_digit4 (y : Int) (h1 : 1000 ≤ y) (h2 : y ≤ 9999) :
    intToStr y = digit4 y := by
  unfold intToStr digit4
  rw [if_neg (by omega)]
  rw [natToDigits_four y.toNat (by omega) (by omega)]

end Recur

namespace Recur

theorem jsParseISODate_canonical (y m d : Int) (hy1 : 1000 ≤ y) (hy2 : y ≤ 9999)
    (hm1 : 1 ≤ m) (hm2 : m ≤ 12) (hd1 : 1 ≤ d) (hd2 : d ≤ daysInMonth y m) :
    jsParseISODate (canonicalDate y m d) = some (daysFromCivil y m d * msPerDay) := by
  unfold canonicalDate digit4 digit2
  simp only [List.cons_append, List.nil_append]
  unfold jsParseISODate
  simp only [isDigitCh_digitChar, beq_self_eq_true, Bool.and_self, Bool.true_and,
    Bool.and_true, if_true]
  have hY : 1000 * digitVal (digitChar (y.toNat / 1000)) +
      100 * digitVal (digitChar (y.toNat / 100)) +
      10 * digitVal (digitChar (y.toNat / 10)) + digitVal (digitChar y.toNat) = y := by
    simp only [digitVal_digitChar]
    omega
  have hM : 10 * digitVal (digitChar (m.toNat / 10)) + digitVal (digitChar m.toNat) = m := by
    simp only [digitVal_digitChar]
    omega
  have hD : 10 * digitVal (digitChar (d.toNat / 10)) + digitVal (digitChar d.toNat) = d := by
    simp only [digitVal_digitChar]
    have hb := daysInMonth_bounds y m
    omega
  rw [hY, hM, hD]
  rw [if_pos ⟨hm1, hm2, hd1, hd2⟩]

end Recur

namespace Recur

theorem formatICS_canonical (y m d : Int) (hy1 : 1000 ≤ y) (hy2 : y ≤ 9999)
    (hm1 : 1 ≤ m) (hm2 : m ≤ 12) (hd1 : 1 ≤ d) (hd2 : d ≤ daysInMonth y m) :
    formatICSDate (daysFromCivil y m d * msPerDay) =
      digit4 y ++ digit2 m ++ digit2 d ++ 'T' :: "000000".data := by
  have hb := daysInMonth_bounds y m
  unfold formatICSDate
  have hdd : dateDays (daysFromCivil y m d * msPerDay) = daysFromCivil y m d := by
    unfold dateDays msPerDay
    omega
  have hdm : dateMs (daysFromCivil y m d * msPerDay) = 0 := by
    unfold dateMs msPerDay
    omega
  rw [hdd, hdm, civilFromDays_daysFromCivil y m d hm1 hm2 hd1 hd2]
  dsimp only
  norm_num
  rw [intToStr_eq_digit4 y hy1 hy2, padJS_eq_digit2 m (by omega) (by omega),
    padJS_eq_digit2 d (by omega) (by omega)]
  have hp0 : padJS 0 = ['0', '0'] := by
    unfold padJS intToStr
    rw [if_pos (by norm_num), if_neg (by norm_num),
      show Int.toNat 0 = 0 from rfl, natToDigits_one 0 (by norm_num),
      show digitChar 0 = '0' from by decide]
  rw [hp0]
  rfl

theorem digitChar_beq_Z (k : Nat) : (digitChar k == 'Z') = false :=
  ne_beq_of_digit _ _ (isDigitCh_digitChar k) (by decide)

theorem parseInt4 (a b c e : Nat) :
    parseIntJS [digitChar a, digitChar b, digitChar c, digitChar e] =
      some (1000 * ((a % 10 : Nat) : Int) + 100 * ((b % 10 : Nat) : Int) +
        10 * ((c % 10 : Nat) : Int) + ((e % 10 : Nat) : Int)) := by
  rw [parseIntJS_all_digits _ (by simp)
    (by
      intro x hx
      rcases List.mem_cons.1 hx with h | hx
      · rw [h]; exact isDigitCh_digitChar a
      rcases List.mem_cons.1 hx with h | hx
      · rw [h]; exact isDigitCh_digitChar b
      rcases List.mem_cons.1 hx with h | hx
      · rw [h]; exact isDigitCh_digitChar c
      rcases List.mem_cons.1 hx with h | hx
      · rw [h]; exact isDigitCh_digitChar e
      · cases hx)]
  simp only [List.foldl_cons, List.foldl_nil, digitVal_digitChar]
  congr 1
  push_cast
  ring

theorem parseInt2 (a b : Nat) :
    parseIntJS [digitChar a, digitChar b] =
      some (10 * ((a % 10 : Nat) : Int) + ((b % 10 : Nat) : Int)) := by
  rw [parseIntJS_all_digits _ (by simp)
    (by
      intro x hx
      rcases List.mem_cons.1 hx with h | hx
      · rw [h]; exact isDigitCh_digitChar a
      rcases List.mem_cons.1 hx with h | hx
      · rw [h]; exact isDigitCh_digitChar b
      · cases hx)]
  simp only [List.foldl_cons, List.foldl_nil, digitVal_digitChar]
  congr 1
  push_cast
  ring

end Recur

namespace Recur

theorem parseICSDate_formatted (y m d : Int) (hy1 : 1000 ≤ y) (hy2 : y ≤ 9999)
    (hm1 : 1 ≤ m) (hm2 : m ≤ 12) (hd1 : 1 ≤ d) (hd2 : d ≤ daysInMonth y m) :
    parseICSDate (digit4 y ++ digit2 m ++ digit2 d ++ 'T' :: "000000".data) =
      some (canonicalDate y m d) := by
  have hb := daysInMonth_bounds y m
  unfold digit4 digit2
  simp only [List.cons_append, List.nil_append]
  unfold parseICSDate
  rw [if_neg (by simp)]
  simp only [removeFirstZ, digitChar_beq_Z, Bool.false_eq_true, if_false,
    show ('T' == 'Z') = false from by decide, show ('0' == 'Z') = false from by decide]
  simp only [List.take_succ_cons, List.take_zero, List.drop_succ_cons, List.drop_zero]
  rw [parseInt4, parseInt2, parseInt2]
  simp only [Option.getD_some]
  have hY : 1000 * ((y.toNat / 1000 % 10 : Nat) : Int) + 100 * ((y.toNat / 100 % 10 : Nat) : Int) +
      10 * ((y.toNat / 10 % 10 : Nat) : Int) + ((y.toNat % 10 : Nat) : Int) = y := by omega
  have hM : 10 * ((m.toNat / 10 % 10 : Nat) : Int) + ((m.toNat % 10 : Nat) : Int) = m := by omega
  have hD : 10 * ((d.toNat / 10 % 10 : Nat) : Int) + ((d.toNat % 10 : Nat) : Int) = d := by omega
  rw [hY, hM, hD]
  rw [show m - 1 + 1 = m from by ring]
  unfold canonicalDate
  rw [intToStr_eq_digit4 y hy1 hy2, padJS_eq_digit2 m (by omega) (by omega),
    padJS_eq_digit2 d (by omega) (by omega)]

end Recur

namespace Recur

theorem codeToFreq_freqCode (f : Frequency) (h : f ≠ Frequency.never) :
    codeToFreq (freqCode f) = f := by
  cases f
  · exact absurd rfl h
  · decide
  · decide
  · decide
  · decide

theorem mem_joinWithChar (c : Char) :
    ∀ (ls : List Str) (x : Char), x ∈ joinWithChar c ls → x = c ∨ ∃ s ∈ ls, x ∈ s := by
  intro ls
  induction ls with
  | nil => intro x hx; cases hx
  | cons p rest ih =>
    intro x hx
    cases rest with
    | nil =>
      exact Or.inr ⟨p, List.mem_cons_self _ _, hx⟩
    | cons q qs =>
      simp only [joinWithChar] at hx
      rcases List.mem_append.1 hx with hx | hx
      · exact Or.inr ⟨p, List.mem_cons_self _ _, hx⟩
      · rcases List.mem_cons.1 hx with hx | hx
        · exact Or.inl hx
        · rcases ih x hx with h | ⟨s, hs, hxs⟩
          · exact Or.inl h
          · exact Or.inr ⟨s, List.mem_cons_of_mem _ hs, hxs⟩

theorem untilValue_chars (y m d : Int) (x : Char)
    (hx : x ∈ digit4 y ++ digit2 m ++ digit2 d ++ 'T' :: "000000".data) :
    isDigitCh x = true ∨ x = 'T' := by
  simp only [digit4, digit2, List.cons_append, List.nil_append, List.mem_cons,
    List.not_mem_nil, or_false] at hx
  rcases hx with h | h | h | h | h | h | h | h | h | h | h | h | h | h | h
  · exact Or.inl (h ▸ isDigitCh_digitChar _)
  · exact Or.inl (h ▸ isDigitCh_digitChar _)
  · exact Or.inl (h ▸ isDigitCh_digitChar _)
  · exact Or.inl (h ▸ isDigitCh_digitChar _)
  · exact Or.inl (h ▸ isDigitCh_digitChar _)
  · exact Or.inl (h ▸ isDigitCh_digitChar _)
  · exact Or.inl (h ▸ isDigitCh_digitChar _)
  · exact Or.inl (h ▸ isDigitCh_digitChar _)
  · exact Or.inr h
  · exact Or.inl (by rw [h]; decide)
  · exact Or.inl (by rw [h]; decide)
  · exact Or.inl (by rw [h]; decide)
  · exact Or.inl (by rw [h]; decide)
  · exact Or.inl (by rw [h]; decide)
  · exact Or.inl (by rw [h]; decide)

theorem joinWithChar_ne_nil (c : Char) (p : Str) (rest : List Str) (hp : p ≠ []) :
    joinWithChar c (p :: rest) ≠ [] := by
  cases rest with
  | nil => simpa [joinWithChar] using hp
  | cons q qs =>
    simp only [joinWithChar]
    intro h
    rcases List.append_eq_nil.1 h with ⟨h1, _⟩
    exact hp h1

theorem fromRRule_join (parts : List Str) (hne : parts ≠ [])
    (hnot : ∀ p ∈ parts, ';' ∉ p) (hj : joinWithChar ';' parts ≠ []) :
    fromRRule (joinWithChar ';' parts) = parts.foldl applyPart initialRule := by
  unfold fromRRule
  rw [if_neg (by simpa [List.isEmpty_iff] using hj)]
  rw [splitOnChar_joinWithChar ';' parts hne hnot]

theorem freqPart_ne_nil (f : Frequency) : "FREQ=".data ++ freqCode f ≠ [] := by
  cases f <;> decide

theorem semi_not_in_freqPart (f : Frequency) : ';' ∉ "FREQ=".data ++ freqCode f := by
  intro h
  rcases List.mem_append.1 h with h | h
  · exact absurd h (by decide)
  · exact (freqCode_props f).1 h

end Recur

namespace Recur

theorem semi_not_in_intervalPart (v : Int) : ';' ∉ "INTERVAL=".data ++ intToStr v := by
  intro h
  rcases List.mem_append.1 h with h | h
  · exact absurd h (by decide)
  · exact semi_not_in_intToStr v h

theorem eq_not_in_bydayValue (l : List Int) : '=' ∉ joinWithChar ',' (l.map dayCode) := by
  intro h
  rcases mem_joinWithChar ',' _ '=' h with h | ⟨s, hs, hmem⟩
  · cases h
  · obtain ⟨dd, hd, hds⟩ := List.mem_map.1 hs
    subst hds
    rcases dayCode_cases dd with hc | hc
    · rw [hc] at hmem; cases hmem
    · exact (dayCodes_props _ hc).2.2.1 hmem

theorem semi_not_in_bydayPart (l : List Int) :
    ';' ∉ "BYDAY=".data ++ joinWithChar ',' (l.map dayCode) := by
  intro h
  rcases List.mem_append.1 h with h | h
  · exact absurd h (by decide)
  · rcases mem_joinWithChar ',' _ ';' h with h | ⟨s, hs, hmem⟩
    · cases h
    · obtain ⟨dd, hd, hds⟩ := List.mem_map.1 hs
      subst hds
      rcases dayCode_cases dd with hc | hc
      · rw [hc] at hmem; cases hmem
      · exact (dayCodes_props _ hc).2.1 hmem

theorem semi_not_in_countPart (c : Int) : ';' ∉ "COUNT=".data ++ intToStr c := by
  intro h
  rcases List.mem_append.1 h with h | h
  · exact absurd h (by decide)
  · exact semi_not_in_intToStr c h

theorem semi_not_in_untilPart (y m d : Int) :
    ';' ∉ "UNTIL=".data ++ (digit4 y ++ digit2 m ++ digit2 d ++ 'T' :: "000000".data) := by
  intro h
  rcases List.mem_append.1 h with h | h
  · exact absurd h (by decide)
  · rcases untilValue_chars y m d ';' h with h | h
    · exact absurd h (by decide)
    · cases h

theorem eq_not_in_untilValue (y m d : Int) :
    '=' ∉ digit4 y ++ digit2 m ++ digit2 d ++ 'T' :: "000000".data := by
  intro h
  rcases untilValue_chars y m d '=' h with h | h
  · exact absurd h (by decide)
  · cases h

theorem jsIntervalOr1_some (v : Int) (h : ¬v = 0) : jsIntervalOr1 (some v) = v := by
  simp [jsIntervalOr1, h]

end Recur

namespace Recur

theorem roundtrip_core (r : RecurrenceRule) (hfreq : ¬r.frequency = Frequency.never)
    (rest : List Str)
    (hT : toRRule r = joinWithChar ';' (("FREQ=".data ++ freqCode r.frequency) :: rest))
    (hsemi : ∀ p ∈ rest, ';' ∉ p)
    (hfold : ruleEquiv r
      (rest.foldl applyPart { initialRule with frequency := r.frequency })) :
    ruleEquiv r (fromRRule (toRRule r)) := by
  have hmem : ∀ p ∈ ("FREQ=".data ++ freqCode r.frequency) :: rest, ';' ∉ p := by
    intro p hp
    rcases List.mem_cons.1 hp with rfl | hp
    · exact semi_not_in_freqPart _
    · exact hsemi p hp
  rw [hT, fromRRule_join _ (by simp) hmem
    (joinWithChar_ne_nil _ _ _ (freqPart_ne_nil _))]
  rw [List.foldl_cons, applyPart_freq _ _ (freqCode_props _).2, codeToFreq_freqCode _ hfreq]
  exact hfold

end Recur

namespace Recur

/-- C5: for every recurrence rule using only supported fields (frequency in
daily/weekly/monthly/yearly, interval absent or at least 1, daysOfWeek of
weekday numbers and nonempty only for weekly rules, end condition never,
after with a positive count, or on a canonical YYYY-MM-DD date),
fromRRule (toRRule rule) reproduces an equivalent rule: same frequency, same
effective interval, same weekday set, same end condition and end value. -/
theorem c5_rrule_roundtrip (r : RecurrenceRule)
    (hfreq : ¬r.frequency = Frequency.never)
    (hint : r.interval = none ∨ ∃ v : Int, r.interval = some v ∧ 1 ≤ v)
    (hdays1 : ∀ l, r.daysOfWeek = some l → ∀ x ∈ l, 0 ≤ x ∧ x < 7)
    (hdays2 : ∀ l, r.daysOfWeek = some l → l ≠ [] → r.frequency = Frequency.weekly)
    (hafter : r.endCondition = EndCondition.after → ∃ c : Int, r.endCount = some c ∧ 1 ≤ c)
    (hon : r.endCondition = EndCondition.onDate →
      ∃ y m d : Int, r.endDate = some (canonicalDate y m d) ∧ 1000 ≤ y ∧ y ≤ 9999 ∧
        1 ≤ m ∧ m ≤ 12 ∧ 1 ≤ d ∧ d ≤ daysInMonth y m) :
    ruleEquiv r (fromRRule (toRRule r)) := by
  have hIcase :
      ((match r.interval with
        | some v => if 1 < v then ["INTERVAL=".data ++ intToStr v] else []
        | none => []) = ([] : List Str) ∧ effInterval r = 1) ∨
      (∃ v : Int, 2 ≤ v ∧ effInterval r = v ∧ r.interval = some v ∧
        (match r.interval with
         | some v => if 1 < v then ["INTERVAL=".data ++ intToStr v] else []
         | none => []) = ["INTERVAL=".data ++ intToStr v]) := by
    rcases hint with hIv | ⟨v, hIv, hv1⟩
    · left
      rw [hIv]
      exact ⟨rfl, by simp [effInterval, initialRule, hIv]⟩
    · by_cases h2 : 1 < v
      · right
        refine ⟨v, by omega, ?_, hIv, ?_⟩
        · simp [effInterval, hIv, show ¬v = 0 from by omega]
        · rw [hIv]
          dsimp only
          rw [if_pos h2]
      · left
        have hv2 : v = 1 := by omega
        rw [hIv, hv2]
        refine ⟨?_, ?_⟩
        · dsimp only
          rw [if_neg (by decide : ¬(1 : Int) < 1)]
        · simp [effInterval, hIv, hv2]
  have hBcase :
      ((match r.frequency, r.daysOfWeek with
        | Frequency.weekly, some l =>
          if l.isEmpty then []
          else ["BYDAY=".data ++ joinWithChar ',' (l.map dayCode)]
        | _, _ => []) = ([] : List Str) ∧ r.daysOfWeek.getD [] = []) ∨
      (∃ l : List Int, l ≠ [] ∧ (∀ x ∈ l, 0 ≤ x ∧ x < 7) ∧ r.daysOfWeek = some l ∧
        (match r.frequency, r.daysOfWeek with
         | Frequency.weekly, some l =>
           if l.isEmpty then []
           else ["BYDAY=".data ++ joinWithChar ',' (l.map dayCode)]
         | _, _ => []) = ["BYDAY=".data ++ joinWithChar ',' (l.map dayCode)]) := by
    cases hdw : r.daysOfWeek with
    | none =>
      left
      exact ⟨by cases r.frequency <;> rfl, rfl⟩
    | some l =>
      by_cases hl : l = []
      · subst hl
        left
        exact ⟨by cases r.frequency <;> simp, rfl⟩
      · have hw := hdays2 l hdw hl
        right
        refine ⟨l, hl, hdays1 l hdw, rfl, ?_⟩
        rw [hw]
        dsimp only
        rw [if_neg (by simpa using hl)]
  have hEcase :
      ((if r.endCondition = EndCondition.after ∧ countTruthy r.endCount = true then
          ["COUNT=".data ++ intToStr (r.endCount.getD 0)]
        else if r.endCondition = EndCondition.onDate ∧ dateTruthy r.endDate = true then
          ["UNTIL=".data ++
            (match jsParseISODate (r.endDate.getD []) with
             | some t => formatICSDate t
             | none => "NaNNaNNaNTNaNNaNNaN".data)]
        else []) = ([] : List Str) ∧ r.endCondition = EndCondition.never) ∨
      (∃ c : Int, 1 ≤ c ∧ r.endCondition = EndCondition.after ∧ r.endCount = some c ∧
        (if r.endCondition = EndCondition.after ∧ countTruthy r.endCount = true then
          ["COUNT=".data ++ intToStr (r.endCount.getD 0)]
        else if r.endCondition = EndCondition.onDate ∧ dateTruthy r.endDate = true then
          ["UNTIL=".data ++
            (match jsParseISODate (r.endDate.getD []) with
             | some t => formatICSDate t
             | none => "NaNNaNNaNTNaNNaNNaN".data)]
        else []) = ["COUNT=".data ++ intToStr c]) ∨
      (∃ y m d : Int, 1000 ≤ y ∧ y ≤ 9999 ∧ 1 ≤ m ∧ m ≤ 12 ∧ 1 ≤ d ∧
        d ≤ daysInMonth y m ∧ r.endCondition = EndCondition.onDate ∧
        r.endDate = some (canonicalDate y m d) ∧
        (if r.endCondition = EndCondition.after ∧ countTruthy r.endCount = true then
          ["COUNT=".data ++ intToStr (r.endCount.getD 0)]
        else if r.endCondition = EndCondition.onDate ∧ dateTruthy r.endDate = true then
          ["UNTIL=".data ++
            (match jsParseISODate (r.endDate.getD []) with
             | some t => formatICSDate t
             | none => "NaNNaNNaNTNaNNaNNaN".data)]
        else []) =
          ["UNTIL=".data ++ (digit4 y ++ digit2 m ++ digit2 d ++ 'T' :: "000000".data)]) := by
    cases he : r.endCondition with
    | never =>
      left
      exact ⟨by simp, rfl⟩
    | after =>
      obtain ⟨c, hc, hc1⟩ := hafter he
      right; left
      refine ⟨c, hc1, rfl, hc, ?_⟩
      rw [hc, if_pos ⟨rfl, by simp [countTruthy]; omega⟩]
      rfl
    | onDate =>
      obtain ⟨y, m, d, hd, hy1, hy2, hm1, hm2, hd1, hd2⟩ := hon he
      right; right
      refine ⟨y, m, d, hy1, hy2, hm1, hm2, hd1, hd2, rfl, hd, ?_⟩
      rw [if_neg (by simp), hd,
        if_pos ⟨rfl, by simp [dateTruthy, canonicalDate, digit4]⟩]
      rw [Option.getD_some, jsParseISODate_canonical y m d hy1 hy2 hm1 hm2 hd1 hd2]
      dsimp only
      rw [formatICS_canonical y m d hy1 hy2 hm1 hm2 hd1 hd2]
  rcases hIcase with ⟨hIeq, hIeff⟩ | ⟨v, hv2, hIeff, hIv, hIeq⟩ <;>
    rcases hBcase with ⟨hBeq, hBg⟩ | ⟨l, hl, hlb, hdw, hBeq⟩ <;>
      rcases hEcase with ⟨hEeq, hEc⟩ | ⟨c, hc1, hEc, hCc, hEeq⟩ |
        ⟨y, m, d, hy1, hy2, hm1, hm2, hd1, hd2, hEc, hDd, hEeq⟩
  · -- no interval part, no byday, end never
    refine roundtrip_core r hfreq [] ?_ ?_ ?_
    · unfold toRRule
      rw [if_neg hfreq, hIeq, hBeq, hEeq]
      rfl
    · intro p hp
      exact absurd hp (List.not_mem_nil p)
    · refine ⟨rfl, by rw [hIeff]; simp [effInterval, initialRule], by simpa using hBg, hEc, ?_, ?_⟩
      · intro h; rw [hEc] at h; exact absurd h (by decide)
      · intro h; rw [hEc] at h; exact absurd h (by decide)
  · -- no interval part, no byday, count
    refine roundtrip_core r hfreq ["COUNT=".data ++ intToStr c] ?_ ?_ ?_
    · unfold toRRule
      rw [if_neg hfreq, hIeq, hBeq, hEeq]
      rfl
    · intro p hp
      simp only [List.mem_cons, List.not_mem_nil, or_false] at hp
      subst hp
      exact semi_not_in_countPart c
    · simp only [List.foldl_cons, List.foldl_nil]
      rw [applyPart_count _ _ (eq_not_in_intToStr c), parseIntJS_intToStr c (by omega)]
      refine ⟨rfl, by rw [hIeff]; simp [effInterval, initialRule], by simpa using hBg, hEc,
        fun _ => hCc, ?_⟩
      intro h; rw [hEc] at h; exact absurd h (by decide)
  · -- no interval part, no byday, until
    refine roundtrip_core r hfreq
      ["UNTIL=".data ++ (digit4 y ++ digit2 m ++ digit2 d ++ 'T' :: "000000".data)] ?_ ?_ ?_
    · unfold toRRule
      rw [if_neg hfreq, hIeq, hBeq, hEeq]
      rfl
    · intro p hp
      simp only [List.mem_cons, List.not_mem_nil, or_false] at hp
      subst hp
      exact semi_not_in_untilPart y m d
    · simp only [List.foldl_cons, List.foldl_nil]
      rw [applyPart_until _ _ (eq_not_in_untilValue y m d),
        parseICSDate_formatted y m d hy1 hy2 hm1 hm2 hd1 hd2]
      refine ⟨rfl, by rw [hIeff]; simp [effInterval, initialRule], by simpa using hBg, hEc, ?_,
        fun _ => hDd⟩
      intro h; rw [hEc] at h; exact absurd h (by decide)
  · -- no interval part, byday, end never
    refine roundtrip_core r hfreq
      ["BYDAY=".data ++ joinWithChar ',' (l.map dayCode)] ?_ ?_ ?_
    · unfold toRRule
      rw [if_neg hfreq, hIeq, hBeq, hEeq]
      rfl
    · intro p hp
      simp only [List.mem_cons, List.not_mem_nil, or_false] at hp
      subst hp
      exact semi_not_in_bydayPart l
    · simp only [List.foldl_cons, List.foldl_nil]
      rw [applyPart_byday _ _ (eq_not_in_bydayValue l), byday_roundtrip l hlb hl]
      refine ⟨rfl, by rw [hIeff]; simp [effInterval, initialRule], by simp [hdw], hEc, ?_, ?_⟩
      · intro h; rw [hEc] at h; exact absurd h (by decide)
      · intro h; rw [hEc] at h; exact absurd h (by decide)
  · -- no interval part, byday, count
    refine roundtrip_core r hfreq
      ["BYDAY=".data ++ joinWithChar ',' (l.map dayCode),
       "COUNT=".data ++ intToStr c] ?_ ?_ ?_
    · unfold toRRule
      rw [if_neg hfreq, hIeq, hBeq, hEeq]
      rfl
    · intro p hp
      simp only [List.mem_cons, List.not_mem_nil, or_false] at hp
      rcases hp with rfl | rfl
      · exact semi_not_in_bydayPart l
      · exact semi_not_in_countPart c
    · simp only [List.foldl_cons, List.foldl_nil]
      rw [applyPart_byday _ _ (eq_not_in_bydayValue l), byday_roundtrip l hlb hl,
        applyPart_count _ _ (eq_not_in_intToStr c), parseIntJS_intToStr c (by omega)]
      refine ⟨rfl, by rw [hIeff]; simp [effInterval, initialRule], by simp [hdw], hEc,
        fun _ => hCc, ?_⟩
      intro h; rw [hEc] at h; exact absurd h (by decide)
  · -- no interval part, byday, until
    refine roundtrip_core r hfreq
      ["BYDAY=".data ++ joinWithChar ',' (l.map dayCode),
       "UNTIL=".data ++ (digit4 y ++ digit2 m ++ digit2 d ++ 'T' :: "000000".data)] ?_ ?_ ?_
    · unfold toRRule
      rw [if_neg hfreq, hIeq, hBeq, hEeq]
      rfl
    · intro p hp
      simp only [List.mem_cons, List.not_mem_nil, or_false] at hp
      rcases hp with rfl | rfl
      · exact semi_not_in_bydayPart l
      · exact semi_not_in_untilPart y m d
    · simp only [List.foldl_cons, List.foldl_nil]
      rw [applyPart_byday _ _ (eq_not_in_bydayValue l), byday_roundtrip l hlb hl,
        applyPart_until _ _ (eq_not_in_untilValue y m d),
        parseICSDate_formatted y m d hy1 hy2 hm1 hm2 hd1 hd2]
      refine ⟨rfl, by rw [hIeff]; simp [effInterval, initialRule], by simp [hdw], hEc, ?_,
        fun _ => hDd⟩
      intro h; rw [hEc] at h; exact absurd h (by decide)
  · -- interval part, no byday, end never
    refine roundtrip_core r hfreq ["INTERVAL=".data ++ intToStr v] ?_ ?_ ?_
    · unfold toRRule
      rw [if_neg hfreq, hIeq, hBeq, hEeq]
      rfl
    · intro p hp
      simp only [List.mem_cons, List.not_mem_nil, or_false] at hp
      subst hp
      exact semi_not_in_intervalPart v
    · simp only [List.foldl_cons, List.foldl_nil]
      rw [applyPart_interval _ _ (eq_not_in_intToStr v), parseIntJS_intToStr v (by omega),
        jsIntervalOr1_some v (by omega)]
      refine ⟨rfl, by simp [effInterval, initialRule, hIv], by simpa using hBg, hEc, ?_, ?_⟩
      · intro h; rw [hEc] at h; exact absurd h (by decide)
      · intro h; rw [hEc] at h; exact absurd h (by decide)
  · -- interval part, no byday, count
    refine roundtrip_core r hfreq
      ["INTERVAL=".data ++ intToStr v, "COUNT=".data ++ intToStr c] ?_ ?_ ?_
    · unfold toRRule
      rw [if_neg hfreq, hIeq, hBeq, hEeq]
      rfl
    · intro p hp
      simp only [List.mem_cons, List.not_mem_nil, or_false] at hp
      rcases hp with rfl | rfl
      · exact semi_not_in_intervalPart v
      · exact semi_not_in_countPart c
    · simp only [List.foldl_cons, List.foldl_nil]
      rw [applyPart_interval _ _ (eq_not_in_intToStr v), parseIntJS_intToStr v (by omega),
        jsIntervalOr1_some v (by omega),
        applyPart_count _ _ (eq_not_in_intToStr c), parseIntJS_intToStr c (by omega)]
      refine ⟨rfl, by simp [effInterval, initialRule, hIv], by simpa using hBg, hEc,
        fun _ => hCc, ?_⟩
      intro h; rw [hEc] at h; exact absurd h (by decide)
  · -- interval part, no byday, until
    refine roundtrip_core r hfreq
      ["INTERVAL=".data ++ intToStr v,
       "UNTIL=".data ++ (digit4 y ++ digit2 m ++ digit2 d ++ 'T' :: "000000".data)] ?_ ?_ ?_
    · unfold toRRule
      rw [if_neg hfreq, hIeq, hBeq, hEeq]
      rfl
    · intro p hp
      simp only [List.mem_cons, List.not_mem_nil, or_false] at hp
      rcases hp with rfl | rfl
      · exact semi_not_in_intervalPart v
      · exact semi_not_in_untilPart y m d
    · simp only [List.foldl_cons, List.foldl_nil]
      rw [applyPart_interval _ _ (eq_not_in_intToStr v), parseIntJS_intToStr v (by omega),
        jsIntervalOr1_some v (by omega),
        applyPart_until _ _ (eq_not_in_untilValue y m d),
        parseICSDate_formatted y m d hy1 hy2 hm1 hm2 hd1 hd2]
      refine ⟨rfl, by simp [effInterval, initialRule, hIv], by simpa using hBg, hEc, ?_,
        fun _ => hDd⟩
      intro h; rw [hEc] at h; exact absurd h (by decide)
  · -- interval part, byday, end never
    refine roundtrip_core r hfreq
      ["INTERVAL=".data ++ intToStr v,
       "BYDAY=".data ++ joinWithChar ',' (l.map dayCode)] ?_ ?_ ?_
    · unfold toRRule
      rw [if_neg hfreq, hIeq, hBeq, hEeq]
      rfl
    · intro p hp
      simp only [List.mem_cons, List.not_mem_nil, or_false] at hp
      rcases hp with rfl | rfl
      · exact semi_not_in_intervalPart v
      · exact semi_not_in_bydayPart l
    · simp only [List.foldl_cons, List.foldl_nil]
      rw [applyPart_interval _ _ (eq_not_in_intToStr v), parseIntJS_intToStr v (by omega),
        jsIntervalOr1_some v (by omega),
        applyPart_byday _ _ (eq_not_in_bydayValue l), byday_roundtrip l hlb hl]
      refine ⟨rfl, by simp [effInterval, initialRule, hIv], by simp [hdw], hEc, ?_, ?_⟩
      · intro h; rw [hEc] at h; exact absurd h (by decide)
      · intro h; rw [hEc] at h; exact absurd h (by decide)
  · -- interval part, byday, count
    refine roundtrip_core r hfreq
      ["INTERVAL=".data ++ intToStr v,
       "BYDAY=".data ++ joinWithChar ',' (l.map dayCode),
       "COUNT=".data ++ intToStr c] ?_ ?_ ?_
    · unfold toRRule
      rw [if_neg hfreq, hIeq, hBeq, hEeq]
      rfl
    · intro p hp
      simp only [List.mem_cons, List.not_mem_nil, or_false] at hp
      rcases hp with rfl | rfl | rfl
      · exact semi_not_in_intervalPart v
      · exact semi_not_in_bydayPart l
      · exact semi_not_in_countPart c
    · simp only [List.foldl_cons, List.foldl_nil]
      rw [applyPart_interval _ _ (eq_not_in_intToStr v), parseIntJS_intToStr v (by omega),
        jsIntervalOr1_some v (by omega),
        applyPart_byday _ _ (eq_not_in_bydayValue l), byday_roundtrip l hlb hl,
        applyPart_count _ _ (eq_not_in_intToStr c), parseIntJS_intToStr c (by omega)]
      refine ⟨rfl, by simp [effInterval, initialRule, hIv], by simp [hdw], hEc,
        fun _ => hCc, ?_⟩
      intro h; rw [hEc] at h; exact absurd h (by decide)
  · -- interval part, byday, until
    refine roundtrip_core r hfreq
      ["INTERVAL=".data ++ intToStr v,
       "BYDAY=".data ++ joinWithChar ',' (l.map dayCode),
       "UNTIL=".data ++ (digit4 y ++ digit2 m ++ digit2 d ++ 'T' :: "000000".data)] ?_ ?_ ?_
    · unfold toRRule
      rw [if_neg hfreq, hIeq, hBeq, hEeq]
      rfl
    · intro p hp
      simp only [List.mem_cons, List.not_mem_nil, or_false] at hp
      rcases hp with rfl | rfl | rfl
      · exact semi_not_in_intervalPart v
      · exact semi_not_in_bydayPart l
      · exact semi_not_in_untilPart y m d
    · simp only [List.foldl_cons, List.foldl_nil]
      rw [applyPart_interval _ _ (eq_not_in_intToStr v), parseIntJS_intToStr v (by omega),
        jsIntervalOr1_some v (by omega),
        applyPart_byday _ _ (eq_not_in_bydayValue l), byday_roundtrip l hlb hl,
        applyPart_until _ _ (eq_not_in_untilValue y m d),
        parseICSDate_formatted y m d hy1 hy2 hm1 hm2 hd1 hd2]
      refine ⟨rfl, by simp [effInterval, initialRule, hIv], by simp [hdw], hEc, ?_,
        fun _ => hDd⟩
      intro h; rw [hEc] at h; exact absurd h (by decide)

/-- C5 witness: the spec example rule weekly / interval 2 / Mon+Wed / count 5
round-trips through toRRule and fromRRule to an equivalent rule. -/
theorem c5_rrule_roundtrip_witness :
    ruleEquiv ruleWeekly2MoWe5 (fromRRule (toRRule ruleWeekly2MoWe5)) := by
  refine c5_rrule_roundtrip ruleWeekly2MoWe5 (by decide)
    (Or.inr ⟨2, rfl, by decide⟩) ?_ ?_ ?_ ?_
  · intro l hl
    simp only [ruleWeekly2MoWe5, Option.some.injEq] at hl
    subst hl
    decide
  · intro _ _ _
    rfl
  · intro _
    exact ⟨5, rfl, by decide⟩
  · intro h
    exact absurd h (by decide)

end Recur

namespace Recur

theorem getNextDate_congr (cur orig : Int) (r1 r2 : RecurrenceRule)
    (hf : r1.frequency = r2.frequency) (hd : r1.daysOfWeek = r2.daysOfWeek)
    (he : effInterval r1 = effInterval r2) :
    getNextDate cur r1 orig = getNextDate cur r2 orig := by
  simp only [getNextDate, hasExplicitDays, hf, hd, he]

theorem genLoop_congr (p1 p2 : Event) (r1 r2 : RecurrenceRule) (sR eR : Int)
    (recEnd recCount : Option Int) (evStart dur : Int)
    (hci : ∀ (cur : Int) (count : Nat),
      createInstance p1 cur dur count = createInstance p2 cur dur count)
    (hf : r1.frequency = r2.frequency) (hd : r1.daysOfWeek = r2.daysOfWeek)
    (he : effInterval r1 = effInterval r2) :
    ∀ (fuel : Nat) (cur : Int) (count : Nat),
      genLoop p1 r1 sR eR recEnd recCount evStart dur fuel cur count =
      genLoop p2 r2 sR eR recEnd recCount evStart dur fuel cur count := by
  intro fuel
  induction fuel with
  | zero => intro cur count; rfl
  | succ m ih =>
    intro cur count
    simp only [genLoop, hf, hd, hasExplicitDays, hci,
      getNextDate_congr cur evStart r1 r2 hf hd he, ih]

/-- C8 (amended): an interval of 0, or an absent interval, behaves exactly
as interval 1 for every event and query range (rec.interval || 1 replaces
the falsy values 0 and undefined). Negative intervals are excluded: they
are used as-is, see the counterexample. -/
theorem c8_zero_interval_as_one (parent : Event) (r : RecurrenceRule) (sR eR : Int)
    (hrec : parent.recurrence = some r)
    (hzero : r.interval = some 0 ∨ r.interval = none) :
    generateInstances parent sR eR =
      generateInstances
        { parent with recurrence := some { r with interval := some 1 } } sR eR := by
  have he : effInterval r = effInterval { r with interval := some 1 } := by
    rcases hzero with hz | hz <;> simp [effInterval, hz]
  simp only [generateInstances, hrec]
  split_ifs
  · rfl
  · exact genLoop_congr parent { parent with recurrence := some { r with interval := some 1 } }
      r { r with interval := some 1 } sR eR
      (recEndOf r) (recCountOf r) parent.start
      (match parent.stop with | some e => e - parent.start | none => 0)
      (fun _ _ => rfl) rfl rfl he 1000 parent.start 0

/-- Witness for c8_zero_interval_as_one at a concrete zero-interval event. -/
theorem c8_zero_interval_as_one_witness :
    generateInstances evZeroInt (mkTs 2026 1 1) (mkTs 2026 1 10) =
      generateInstances
        { evZeroInt with recurrence := some { ruleZeroInt with interval := some 1 } }
        (mkTs 2026 1 1) (mkTs 2026 1 10) :=
  c8_zero_interval_as_one evZeroInt ruleZeroInt (mkTs 2026 1 1) (mkTs 2026 1 10)
    rfl (Or.inl rfl)

theorem applyPartE_keeps_frequency (r : RecurrenceRule) (p : Str)
    (hk : ¬partKey p = "FREQ".data) (r' : RecurrenceRule)
    (h : applyPartE r p = some r') : r'.frequency = r.frequency := by
  have hk2 : ¬((splitOnChar '=' p).headD [] = "FREQ".data) := hk
  unfold applyPartE at h
  rw [if_neg hk2] at h
  split_ifs at h
  · simp only [Option.some.injEq] at h
    subst h
    rfl
  · cases hv : (splitOnChar '=' p).get? 1 with
    | none =>
      rw [hv] at h
      simp at h
    | some v =>
      rw [hv] at h
      simp only [Option.some.injEq] at h
      subst h
      rfl
  · simp only [Option.some.injEq] at h
    subst h
    rfl
  · simp only [Option.some.injEq] at h
    subst h
    rfl
  · simp only [Option.some.injEq] at h
    subst h
    rfl

theorem fromRRuleParts_keeps_frequency (parts : List Str) :
    ∀ r : RecurrenceRule, (∀ p ∈ parts, ¬partKey p = "FREQ".data) →
    ∀ r', fromRRuleParts r parts = some r' → r'.frequency = r.frequency := by
  induction parts with
  | nil =>
    intro r _ r' h
    simp only [fromRRuleParts, Option.some.injEq] at h
    subst h
    rfl
  | cons p rest ih =>
    intro r hall r' h
    simp only [fromRRuleParts] at h
    cases hap : applyPartE r p with
    | none =>
      rw [hap] at h
      simp at h
    | some r1 =>
      rw [hap] at h
      rw [ih r1 (fun q hq => hall q (List.mem_cons_of_mem _ hq)) r' h,
        applyPartE_keeps_frequency r p (hall p (List.mem_cons_self _ _)) r1 hap]

/-- C7 (amended): empty input gives the bare never rule; a non-empty RRULE
with no FREQ key leaves frequency at its initial value never whenever the
parse completes at all — a BYDAY part with no value instead makes the
source throw a TypeError (undefined.split), modelled by fromRRuleE
returning none; the daily default applies only when a FREQ key is present
with an unrecognised value. -/
theorem c7_freq_defaults :
    fromRRuleE [] = some { frequency := Frequency.never } ∧
    (∀ s : Str, s.isEmpty = false →
      (∀ p ∈ splitOnChar ';' s, ¬partKey p = "FREQ".data) →
      ∀ r, fromRRuleE s = some r → r.frequency = Frequency.never) ∧
    (fromRRuleE "FREQ=BOGUS".data).map (fun r => r.frequency) = some Frequency.daily := by
  refine ⟨rfl, ?_, by decide⟩
  intro s hs hall r h
  unfold fromRRuleE at h
  rw [hs] at h
  simp only [Bool.false_eq_true, if_false] at h
  rw [fromRRuleParts_keeps_frequency (splitOnChar ';' s) initialRule hall r h]
  rfl

/-- Witness for c7_freq_defaults at a concrete FREQ-less RRULE string that
parses without throwing. -/
theorem c7_freq_defaults_witness :
    fromRRuleE "INTERVAL=2;COUNT=3".data =
      some { frequency := Frequency.never, interval := some 2,
             endCondition := EndCondition.after, endCount := some 3 } ∧
    ({ frequency := Frequency.never, interval := some 2,
       endCondition := EndCondition.after, endCount := some 3 } : RecurrenceRule).frequency =
      Frequency.never :=
  ⟨by decide, c7_freq_defaults.2.1 "INTERVAL=2;COUNT=3".data (by decide) (by decide) _ (by decide)⟩

end Recur
